import Mathlib

/-!
Piano-mode drawers of gosu (`mode/piano/drawer.go`) and chart file modes (`mode.go`).

A shallow embedding of the window trackers `BarDrawer` and `NoteDrawer`, of the
key-state drawer `KeyDrawer` and of the judgment drawer `JudgmentDrawer`, in the
namespace `Piano`, and of `ChartFileMode`, in the namespace `Gosu`.

Conventions of the embedding:

* `float64` values are exact rationals (`ℚ`); Go `int` values are `Int`.
* A doubly linked sequence is the list of its nodes in sequence order.  A pointer
  to a node is the index of the node in that list, the nil pointer is `none`.
  The `Prev` link of node `i` is node `i - 1` (nil at the head), the `Next` link
  is node `i + 1` (nil at the tail).
* A Go panic (nil dereference, index out of range) is the result `none`.
* A `for` loop over pointers is a recursion on a fuel argument.  `Update` passes
  the length of the sequence, and the lemmas `farthestPrevLoop_exit`,
  `farthestNextLoop_exit`, `nearestPrevLoop_exit` and `nearestNextLoop_exit` show
  that the loop condition is false at the pointer returned, so the fuel never
  runs out.  `Draw` passes two more than the index of `Farthest`.
* `Draw` returns the list of draw calls it submits, in order.
-/

namespace Gosu

/-! ## Chart file modes (`mode.go`) -/

/-- The constant `ModeNone = iota - 1`. -/
def ModeNone : Int := -1

/-- The constant `ModePiano4`, commented `1 to 4 Key`. -/
def ModePiano4 : Int := 0

/-- The constant `ModePiano7`, commented `5, 6 Key and 7+ Key`. -/
def ModePiano7 : Int := 1

/-- The constant `ModeDrum`. -/
def ModeDrum : Int := 2

/-- The constant `ModeKaraoke`. -/
def ModeKaraoke : Int := 3

/-- The package `format/osu`, declared outside `mode.go`: the function `osu.Mode`,
which reads the mode and the key count of a chart file, and the two mode
constants the `switch` compares with. -/
structure Osu where
  Mode : String → Int × Int
  ModeMania : Int
  ModeTaiko : Int

/-- The loop of `filepath.Ext` of the Go standard library, over the path read
backwards: it stops with no extension at a path separator and returns the
suffix from the first dot it meets. -/
def extScan : List Char → List Char → List Char
  | [], _ => []
  | c :: rest, suffix =>
    if c = '/' then []
    else if c = '.' then '.' :: suffix
    else extScan rest (c :: suffix)

/-- The function `filepath.Ext`: the suffix from the final dot of the final
element of the path, empty if there is no dot. -/
def filepathExt (path : String) : List Char :=
  extScan path.data.reverse []

/-- The function `strings.ToLower` on ASCII letters, which are the letters the
extensions compared in `ChartFileMode` are made of. -/
def toLower (s : List Char) : List Char :=
  s.map Char.toLower

/-- The function `ChartFileMode`: the mode of a chart file by its path. -/
def ChartFileMode (osu : Osu) (fpath : String) : Int :=
  let ext := toLower (filepathExt fpath)
  if ext = ".osu".data then
    let (mode, keyCount) := osu.Mode fpath
    if mode = osu.ModeMania then
      if keyCount ≤ 4 ∨ keyCount = 6 then ModePiano4 else ModePiano7
    else if mode = osu.ModeTaiko then ModeDrum
    else ModeNone
  else if ext = ".ojn".data ∨ ext = ".bms".data then ModePiano7
  else ModeNone

/-- An `osu` package whose `Mode` reports every chart as mania with `k` keys. -/
def exampleOsu (k : Int) : Osu := ⟨fun _ => (3, k), 3, 1⟩

end Gosu

namespace Piano

/-! ## Data model -/

/-- Modelled from the spec: `draws.Sprite` is declared outside `drawer.go`.  The
spec describes a visual primitive with 2D translation and non-uniform scale whose
native length along the scroll axis is what `H()` returns. -/
structure Sprite where
  id : Nat
  H : ℚ
  X : ℚ
  Y : ℚ
  ScaleX : ℚ
  ScaleY : ℚ
deriving DecidableEq

/-- Modelled from the spec: `Sprite.Move(dx, dy)` translates the sprite. -/
def Sprite.Move (s : Sprite) (dx dy : ℚ) : Sprite :=
  { s with X := s.X + dx, Y := s.Y + dy }

/-- Modelled from the spec: `Sprite.SetScaleXY(x, y, filter)` sets both scale factors. -/
def Sprite.SetScaleXY (s : Sprite) (x y : ℚ) : Sprite :=
  { s with ScaleX := x, ScaleY := y }

/-- Modelled from the spec: `Sprite.SetScale(ratio)` scales uniformly. -/
def Sprite.SetScale (s : Sprite) (ratio : ℚ) : Sprite :=
  { s with ScaleX := ratio, ScaleY := ratio }

/-- The zero value of `draws.Sprite`. -/
def Sprite.zero : Sprite := ⟨0, 0, 0, 0, 0, 0⟩

/-- The colour transform of `ebiten.DrawImageOptions`: `none` is the identity,
`some (h, s, v)` records a call `ColorM.ChangeHSV(h, s, v)`. -/
abbrev ColorM := Option (ℚ × ℚ × ℚ)

/-- One call `sprite.Draw(screen, op)`: the sprite as it is when drawn, and the
colour transform of `op` (`none` for a nil or untouched `op`). -/
structure DrawCall where
  sprite : Sprite
  color : ColorM
deriving DecidableEq

/-- Modelled from the spec: `Bar` is a timed object with no extra fields. -/
structure Bar where
  Position : ℚ
deriving DecidableEq

/-- Modelled from the spec: the note types, which index `NoteDrawer.Sprites`. -/
inductive NoteType where
  | Normal
  | Head
  | Tail
  | Body
deriving DecidableEq

/-- Modelled from the spec: `Note` is a timed object with a type and the `Marked` flag. -/
structure Note where
  Position : ℚ
  Typ : NoteType
  Marked : Bool
deriving DecidableEq

/-- The `Prev` link of node `p`: nil at the head. -/
def Prev (p : Nat) : Option Nat :=
  if p = 0 then none else some (p - 1)

/-- The `Next` link of node `p` in a sequence of `len` nodes: nil at the tail. -/
def Next (len p : Nat) : Option Nat :=
  if p + 1 < len then some (p + 1) else none

/-- The `Position` field of node `p` of a sequence with positions `ps`. -/
def posAt (ps : List ℚ) (p : Nat) : ℚ :=
  ps.getD p 0

/-- The positions of a sequence of bars, in sequence order. -/
def barPositions (bars : List Bar) : List ℚ :=
  bars.map Bar.Position

/-- The positions of a sequence of notes, in sequence order. -/
def notePositions (notes : List Note) : List ℚ :=
  notes.map Note.Position

/-! ## Window tracker: the four loops of `Update` -/

/-- First loop of `Update`:
`for d.Farthest.Prev != nil && d.Farthest.Prev.Position-d.Cursor > maxPosition`
`{ d.Farthest = d.Farthest.Prev }`. -/
def farthestPrevLoop (ps : List ℚ) (cursor maxPosition : ℚ) : Nat → Nat → Nat
  | 0, far => far
  | fuel + 1, far =>
    match Prev far with
    | some p =>
      if posAt ps p - cursor > maxPosition then
        farthestPrevLoop ps cursor maxPosition fuel p
      else far
    | none => far

/-- Second loop of `Update`:
`for d.Farthest.Next != nil && d.Farthest.Position-d.Cursor <= maxPosition`
`{ d.Farthest = d.Farthest.Next }`. -/
def farthestNextLoop (ps : List ℚ) (cursor maxPosition : ℚ) : Nat → Nat → Nat
  | 0, far => far
  | fuel + 1, far =>
    match Next ps.length far with
    | some q =>
      if posAt ps far - cursor ≤ maxPosition then
        farthestNextLoop ps cursor maxPosition fuel q
      else far
    | none => far

/-- Third loop of `Update`:
`for d.Nearest.Prev != nil && d.Nearest.Position-d.Cursor > minPosition`
`{ d.Nearest = d.Nearest.Prev }`. -/
def nearestPrevLoop (ps : List ℚ) (cursor minPosition : ℚ) : Nat → Nat → Nat
  | 0, near => near
  | fuel + 1, near =>
    match Prev near with
    | some p =>
      if posAt ps near - cursor > minPosition then
        nearestPrevLoop ps cursor minPosition fuel p
      else near
    | none => near

/-- Fourth loop of `Update`:
`for d.Nearest.Next != nil && d.Nearest.Next.Position-d.Cursor <= minPosition`
`{ d.Nearest = d.Nearest.Next }`. -/
def nearestNextLoop (ps : List ℚ) (cursor minPosition : ℚ) : Nat → Nat → Nat
  | 0, near => near
  | fuel + 1, near =>
    match Next ps.length near with
    | some q =>
      if posAt ps q - cursor ≤ minPosition then
        nearestNextLoop ps cursor minPosition fuel q
      else near
    | none => near

/-- The two loops that move `Farthest`, in the order of `Update`. -/
def updateFarthest (ps : List ℚ) (maxPosition cursor : ℚ) (far : Nat) : Nat :=
  farthestNextLoop ps cursor maxPosition ps.length
    (farthestPrevLoop ps cursor maxPosition ps.length far)

/-- The two loops that move `Nearest`, in the order of `Update`. -/
def updateNearest (ps : List ℚ) (minPosition cursor : ℚ) (near : Nat) : Nat :=
  nearestNextLoop ps cursor minPosition ps.length
    (nearestPrevLoop ps cursor minPosition ps.length near)

/-- The type `BarDrawer`: the cursor, the two borrowed pointers and the bar sprite. -/
structure BarDrawer where
  Cursor : ℚ
  Farthest : Option Nat
  Nearest : Option Nat
  Sprite : Sprite
deriving DecidableEq

/-- The type `NoteDrawer`: the cursor, the two borrowed pointers and one sprite per note type. -/
structure NoteDrawer where
  Cursor : ℚ
  Farthest : Option Nat
  Nearest : Option Nat
  Sprites : NoteType → Sprite

/-- The method `BarDrawer.Update`.  There is no nil guard: `d.Farthest.Prev` panics when
`Farthest` is nil, and `d.Nearest.Prev` panics when `Nearest` is nil. -/
def BarDrawer.Update (bars : List Bar) (minPosition maxPosition : ℚ)
    (d : BarDrawer) (cursor : ℚ) : Option BarDrawer :=
  match d.Farthest with
  | none => none
  | some far =>
    match d.Nearest with
    | none => none
    | some near =>
      some { d with
        Cursor := cursor
        Farthest := some (updateFarthest (barPositions bars) maxPosition cursor far)
        Nearest := some (updateNearest (barPositions bars) minPosition cursor near) }

/-- The method `NoteDrawer.Update`: the cursor is stored, then the nil guard returns early,
then the same four loops as in `BarDrawer.Update` run. -/
def NoteDrawer.Update (notes : List Note) (minPosition maxPosition : ℚ)
    (d : NoteDrawer) (cursor : ℚ) : Option NoteDrawer :=
  match d.Farthest, d.Nearest with
  | some far, some near =>
    some { d with
      Cursor := cursor
      Farthest := some (updateFarthest (notePositions notes) maxPosition cursor far)
      Nearest := some (updateNearest (notePositions notes) minPosition cursor near) }
  | _, _ => some { d with Cursor := cursor }

/-- The chain `b, b.Prev, b.Prev.Prev, ...` followed along `Prev` links until
`near` has been listed or the head has been passed. -/
def chain (near : Nat) : Nat → Nat → List Nat
  | 0, _ => []
  | fuel + 1, b =>
    if b = near then [b]
    else
      match Prev b with
      | some p => b :: chain near fuel p
      | none => [b]

/-- The chain `Farthest, Farthest.Prev, ..., Nearest`. -/
def windowChain (far near : Nat) : List Nat :=
  chain near (far + 1) far

/-- The visible band: `minPosition < Position - Cursor <= maxPosition`. -/
def InBand (minPosition maxPosition cursor position : ℚ) : Prop :=
  minPosition < position - cursor ∧ position - cursor ≤ maxPosition

instance (a b c p : ℚ) : Decidable (InBand a b c p) := by
  unfold InBand; infer_instance

/-- Positions are non-decreasing along the sequence. -/
def PositionSorted (ps : List ℚ) : Prop :=
  ps.Sorted (· ≤ ·)

instance (ps : List ℚ) : Decidable (PositionSorted ps) := by
  unfold PositionSorted; infer_instance

/-- A pointer is non-nil and points at a node of a sequence of `len` nodes. -/
def PointsInto (len : Nat) (p : Option Nat) : Prop :=
  match p with
  | some i => i < len
  | none => False

instance (len : Nat) (p : Option Nat) : Decidable (PointsInto len p) := by
  unfold PointsInto; cases p <;> infer_instance

/-! ## Drawing bars and notes -/

/-- The zero value of `Note`, read where a pointer is dangling. -/
def Note.zero : Note := ⟨0, NoteType.Normal, false⟩

/-- The node a note pointer refers to. -/
def noteAt (notes : List Note) (p : Nat) : Note :=
  notes.getD p Note.zero

/-- The loop of `BarDrawer.Draw`: `for b := d.Farthest; b != d.Nearest.Prev; b = b.Prev`.
The loop variable has no nil guard, so `b.Position` panics when `b` is nil while
`d.Nearest.Prev` is not. -/
def BarDrawer.drawLoop (bars : List Bar) (d : BarDrawer) (stop : Option Nat) :
    Nat → Option Nat → Option (List DrawCall)
  | 0, _ => none
  | fuel + 1, b =>
    if b = stop then some []
    else
      match b with
      | none => none
      | some i =>
        let sprite := d.Sprite
        let pos := posAt (barPositions bars) i - d.Cursor
        let sprite := sprite.Move 0 (-pos)
        (BarDrawer.drawLoop bars d stop fuel (Prev i)).map (fun rest => ⟨sprite, none⟩ :: rest)

/-- The method `BarDrawer.Draw`: the nil guard, then the loop. -/
def BarDrawer.Draw (bars : List Bar) (d : BarDrawer) : Option (List DrawCall) :=
  match d.Farthest, d.Nearest with
  | some far, some near => BarDrawer.drawLoop bars d (Prev near) (far + 2) (some far)
  | _, _ => some []

/-- The length of a long-note body: `length := tail.Position - head.Position`
followed by `length -= -bodyLoss`. -/
def bodyLength (tailPosition headPosition bodyLoss : ℚ) : ℚ :=
  let length := tailPosition - headPosition
  length - (-bodyLoss)

/-- The method `NoteDrawer.DrawLongBody`: `head := tail.Prev`, and `head.Position` panics
when the tail has no `Prev`.  `bodyLoss` and `ReverseBody` are package-level
values declared outside `drawer.go`. -/
def NoteDrawer.DrawLongBody (notes : List Note) (bodyLoss : ℚ) (ReverseBody : Bool)
    (d : NoteDrawer) (tail : Nat) : Option DrawCall :=
  match Prev tail with
  | none => none
  | some head =>
    let body := d.Sprites NoteType.Body
    let length := bodyLength (posAt (notePositions notes) tail)
      (posAt (notePositions notes) head) bodyLoss
    let ratio := length / body.H
    let body := if ReverseBody then body.SetScaleXY 1 (-ratio) else body.SetScaleXY 1 ratio
    let op : ColorM := if (noteAt notes tail).Marked then some (0, 0.3, 0.3) else none
    let ty := posAt (notePositions notes) head - d.Cursor
    let body := body.Move 0 (-ty)
    some ⟨body, op⟩

/-- The loop of `NoteDrawer.Draw`:
`for n := d.Farthest; n != nil && n != d.Nearest.Prev; n = n.Prev`. -/
def NoteDrawer.drawLoop (notes : List Note) (bodyLoss : ℚ) (ReverseBody : Bool)
    (d : NoteDrawer) (stop : Option Nat) : Nat → Option Nat → Option (List DrawCall)
  | 0, _ => none
  | fuel + 1, n =>
    match n with
    | none => some []
    | some i =>
      if some i = stop then some []
      else
        let long : Option (List DrawCall) :=
          if (noteAt notes i).Typ = NoteType.Tail then
            (NoteDrawer.DrawLongBody notes bodyLoss ReverseBody d i).map (fun c => [c])
          else some []
        let sprite := d.Sprites (noteAt notes i).Typ
        let pos := posAt (notePositions notes) i - d.Cursor
        let sprite := sprite.Move 0 (-pos)
        let op : ColorM := if (noteAt notes i).Marked then some (0, 0.3, 0.3) else none
        long.bind (fun body =>
          (NoteDrawer.drawLoop notes bodyLoss ReverseBody d stop fuel (Prev i)).map
            (fun rest => body ++ ⟨sprite, op⟩ :: rest))

/-- The method `NoteDrawer.Draw`: the nil guard, then the loop. -/
def NoteDrawer.Draw (notes : List Note) (bodyLoss : ℚ) (ReverseBody : Bool)
    (d : NoteDrawer) : Option (List DrawCall) :=
  match d.Farthest, d.Nearest with
  | some far, some near =>
    NoteDrawer.drawLoop notes bodyLoss ReverseBody d (Prev near) (far + 2) (some far)
  | _, _ => some []

/-! ## Key drawer -/

/-- The type `KeyDrawer`: the minimum hold in ticks, one countdown per key, the two sprite
slices and the press signals stored by the last `Update`. -/
structure KeyDrawer where
  MinCountdown : Int
  Countdowns : List Int
  KeyUpSprites : List Sprite
  KeyDownSprites : List Sprite
  lastPressed : List Bool
  pressed : List Bool
deriving DecidableEq

/-- First loop of `KeyDrawer.Update`:
`for k, countdown := range d.Countdowns { if countdown > 0 { d.Countdowns[k]-- } }`. -/
def KeyDrawer.decrement (countdowns : List Int) : List Int :=
  countdowns.map (fun countdown => if countdown > 0 then countdown - 1 else countdown)

/-- Second loop of `KeyDrawer.Update`, from key `k` on over the rest of `d.pressed`:
`last := d.lastPressed[k]; if !last && now { d.Countdowns[k] = d.MinCountdown }`.
Both index expressions panic when `k` is out of range. -/
def KeyDrawer.risingEdges (minCountdown : Int) (lastPressed : List Bool) :
    Nat → List Bool → List Int → Option (List Int)
  | _, [], countdowns => some countdowns
  | k, now :: rest, countdowns =>
    match lastPressed[k]? with
    | none => none
    | some last =>
      if !last && now then
        if k < countdowns.length then
          KeyDrawer.risingEdges minCountdown lastPressed (k + 1) rest
            (countdowns.set k minCountdown)
        else none
      else KeyDrawer.risingEdges minCountdown lastPressed (k + 1) rest countdowns

/-- The method `KeyDrawer.Update`: the signals are stored, then the two loops run. -/
def KeyDrawer.Update (d : KeyDrawer) (lastPressed pressed : List Bool) : Option KeyDrawer :=
  (KeyDrawer.risingEdges d.MinCountdown lastPressed 0 pressed
      (KeyDrawer.decrement d.Countdowns)).map
    (fun countdowns =>
      { d with lastPressed := lastPressed, pressed := pressed, Countdowns := countdowns })

/-- The loop of `KeyDrawer.Draw`, from key `k` on over the rest of `d.pressed`.
`p || d.Countdowns[k] > 0` reads the countdown only when `p` is false. -/
def KeyDrawer.drawLoop (d : KeyDrawer) : Nat → List Bool → Option (List DrawCall)
  | _, [] => some []
  | k, p :: rest =>
    let down : Option Bool :=
      if p then some true else (d.Countdowns[k]?).map (fun countdown => decide (countdown > 0))
    down.bind (fun isDown =>
      let sprite : Option Sprite :=
        if isDown then d.KeyDownSprites[k]? else d.KeyUpSprites[k]?
      sprite.bind (fun s =>
        (KeyDrawer.drawLoop d (k + 1) rest).map (fun calls => ⟨s, none⟩ :: calls)))

/-- The method `KeyDrawer.Draw`: one sprite per entry of `d.pressed`. -/
def KeyDrawer.Draw (d : KeyDrawer) : Option (List DrawCall) :=
  KeyDrawer.drawLoop d 0 d.pressed

/-- Successive calls of `KeyDrawer.Update`, one per tick, each with its own pair
`(lastPressed, pressed)`. -/
def KeyDrawer.run (d : KeyDrawer) : List (List Bool × List Bool) → Option KeyDrawer
  | [] => some d
  | (lastPressed, pressed) :: ticks =>
    (d.Update lastPressed pressed).bind (fun d1 => KeyDrawer.run d1 ticks)

/-! ## Judgment drawer -/

/-- Modelled from the spec: `gosu.Judgment` is declared outside `drawer.go`; the
drawer reads its `Window`, the identifier of the severity tier. -/
structure Judgment where
  Window : Int
deriving DecidableEq

/-- The type `JudgmentDrawer`, with the fields `Countdown` and `MaxCountdown` of the
embedded `draws.BaseDrawer`. -/
structure JudgmentDrawer where
  Countdown : Int
  MaxCountdown : Int
  Sprites : List Sprite
  Judgment : Judgment
deriving DecidableEq

/-- Modelled from the spec: `BaseDrawer.Age` is declared outside `drawer.go`; the
normalized age is `(maxCountdown - countdown) / maxCountdown`. -/
def JudgmentDrawer.Age (d : JudgmentDrawer) : ℚ :=
  ((d.MaxCountdown : ℚ) - (d.Countdown : ℚ)) / (d.MaxCountdown : ℚ)

/-- The method `JudgmentDrawer.Update`.  The argument `valid` is `gosu.Judgment.Valid`, declared outside
`drawer.go`. -/
def JudgmentDrawer.Update (valid : Piano.Judgment → Bool) (d : JudgmentDrawer)
    (worst : Piano.Judgment) : JudgmentDrawer :=
  let d1 : JudgmentDrawer :=
    if d.Countdown ≤ 0 then { d with Judgment := ⟨0⟩ }
    else { d with Countdown := d.Countdown - 1 }
  if valid worst then { d1 with Judgment := worst, Countdown := d1.MaxCountdown }
  else d1

/-- First case of the `switch` in `JudgmentDrawer.Draw`: `1.15 * (1 + age)`. -/
def ratioFirst (age : ℚ) : ℚ := 1.15 * (1 + age)

/-- Second case of the `switch` in `JudgmentDrawer.Draw`: `1.15 * (1.2 - age)`. -/
def ratioSecond (age : ℚ) : ℚ := 1.15 * (1.2 - age)

/-- Third case of the `switch` in `JudgmentDrawer.Draw`: `1 - 1.15*(age-0.9)`. -/
def ratioThird (age : ℚ) : ℚ := 1 - 1.15 * (age - 0.9)

/-- The scale ratio of `JudgmentDrawer.Draw`: `ratio := 1.0` and the `switch` on `age`. -/
def scaleRatio (age : ℚ) : ℚ :=
  if age < 0.1 then ratioFirst age
  else if age ≥ 0.1 ∧ age < 0.2 then ratioSecond age
  else if age > 0.9 then ratioThird age
  else 1.0

/-- The sprite lookup of `JudgmentDrawer.Draw`, from index `i` on over the rest of
the tier table `Judgments`: the sprite of the first tier with the same `Window`,
the zero sprite when there is none; `d.Sprites[i]` panics out of range. -/
def JudgmentDrawer.findSprite (d : JudgmentDrawer) :
    Nat → List Piano.Judgment → Option Sprite
  | _, [] => some Sprite.zero
  | i, j :: rest =>
    if j.Window = d.Judgment.Window then d.Sprites[i]?
    else JudgmentDrawer.findSprite d (i + 1) rest

/-- The method `JudgmentDrawer.Draw`.  The argument `Judgments` is the tier table of the package, declared
outside `drawer.go`. -/
def JudgmentDrawer.Draw (Judgments : List Piano.Judgment) (d : JudgmentDrawer) :
    Option (List DrawCall) :=
  if d.Countdown ≤ 0 ∨ d.Judgment.Window = 0 then some []
  else
    (JudgmentDrawer.findSprite d 0 Judgments).map (fun sprite =>
      let age := d.Age
      let ratio := scaleRatio age
      [⟨sprite.SetScale ratio, none⟩])

/-! ## The walk of `Nearest` in the words of the specification -/

/-- Step 3 in the words of the specification: `Nearest` walks backward while
`Prev` exists and `Prev.Position - Cursor > minPosition`. -/
def specNearestPrevLoop (ps : List ℚ) (cursor minPosition : ℚ) : Nat → Nat → Nat
  | 0, near => near
  | fuel + 1, near =>
    match Prev near with
    | some p =>
      if posAt ps p - cursor > minPosition then
        specNearestPrevLoop ps cursor minPosition fuel p
      else near
    | none => near

/-- Step 4 in the words of the specification: `Nearest` walks forward while
`Next` exists and `Next.Position - Cursor <= minPosition`. -/
def specNearestNextLoop (ps : List ℚ) (cursor minPosition : ℚ) : Nat → Nat → Nat
  | 0, near => near
  | fuel + 1, near =>
    match Next ps.length near with
    | some q =>
      if posAt ps q - cursor ≤ minPosition then
        specNearestNextLoop ps cursor minPosition fuel q
      else near
    | none => near

/-- Steps 3 and 4 of the specification, one after the other. -/
def specNearest (ps : List ℚ) (minPosition cursor : ℚ) (near : Nat) : Nat :=
  specNearestNextLoop ps cursor minPosition ps.length
    (specNearestPrevLoop ps cursor minPosition ps.length near)

/-! ## Runs of the judgment drawer -/

/-- Successive calls of `JudgmentDrawer.Update`, one per tick, each with the worst
judgment of that tick. -/
def JudgmentDrawer.run (valid : Piano.Judgment → Bool) (d : JudgmentDrawer) :
    List Piano.Judgment → JudgmentDrawer
  | [] => d
  | worst :: rest => JudgmentDrawer.run valid (JudgmentDrawer.Update valid d worst) rest

/-! ## Example data -/

/-- A sprite with native length 100, unit scale and no translation. -/
def exampleSprite (id : Nat) : Sprite := ⟨id, 100, 0, 0, 1, 1⟩

/-- Four bars at positions 0, 10, 20, 30. -/
def exampleBars : List Bar := [⟨0⟩, ⟨10⟩, ⟨20⟩, ⟨30⟩]

/-- A long note (head at 0, tail at 10) followed by two normal notes. -/
def exampleNotes : List Note :=
  [⟨0, NoteType.Head, false⟩, ⟨10, NoteType.Tail, true⟩,
   ⟨20, NoteType.Normal, false⟩, ⟨30, NoteType.Normal, false⟩]

/-- A bar drawer seeded at the head. -/
def exampleBarDrawer : BarDrawer := ⟨0, some 0, some 0, exampleSprite 0⟩

/-- A note drawer seeded at the tail and the head. -/
def exampleNoteDrawer : NoteDrawer := ⟨0, some 3, some 0, fun _ => exampleSprite 1⟩

/-- A one-key drawer with `MinCountdown = 1`: up sprite 10, down sprite 11. -/
def exampleKeyDrawer : KeyDrawer :=
  ⟨1, [0], [exampleSprite 10], [exampleSprite 11], [], []⟩

/-- A two-key drawer with `MinCountdown = 3`. -/
def exampleKeyDrawer2 : KeyDrawer :=
  ⟨3, [0, 2], [exampleSprite 10, exampleSprite 12], [exampleSprite 11, exampleSprite 13],
    [], []⟩

/-- A validity test for judgments: the window is not zero. -/
def exampleValid (j : Judgment) : Bool := j.Window != 0

/-- A judgment drawer showing tier 40 with 55 of 60 ticks left. -/
def exampleJudgmentDrawer : JudgmentDrawer :=
  ⟨55, 60, [exampleSprite 20, exampleSprite 21], ⟨40⟩⟩

/-- A tier table with the windows 20 and 40. -/
def exampleJudgments : List Judgment := [⟨20⟩, ⟨40⟩]

/-- An unseeded bar drawer: both pointers are nil. -/
def unseededBarDrawer : BarDrawer := ⟨0, none, none, exampleSprite 0⟩

/-- An unseeded note drawer: both pointers are nil. -/
def unseededNoteDrawer : NoteDrawer := ⟨0, none, none, fun _ => exampleSprite 1⟩

/-! ## The loops of the window tracker -/

theorem farthestPrevLoop_head (ps : List ℚ) (c mx : ℚ) (fuel : Nat) :
    farthestPrevLoop ps c mx fuel 0 = 0 := by
  cases fuel <;> simp [farthestPrevLoop, Prev]

theorem farthestPrevLoop_step (ps : List ℚ) (c mx : ℚ) (fuel p : Nat) :
    farthestPrevLoop ps c mx (fuel + 1) (p + 1) =
      if posAt ps p - c > mx then farthestPrevLoop ps c mx fuel p else p + 1 := by
  simp [farthestPrevLoop, Prev]

theorem farthestNextLoop_step (ps : List ℚ) (c mx : ℚ) (fuel far : Nat) :
    farthestNextLoop ps c mx (fuel + 1) far =
      if far + 1 < ps.length ∧ posAt ps far - c ≤ mx then
        farthestNextLoop ps c mx fuel (far + 1) else far := by
  by_cases h : far + 1 < ps.length <;> simp [farthestNextLoop, Next, h]

theorem nearestPrevLoop_head (ps : List ℚ) (c mn : ℚ) (fuel : Nat) :
    nearestPrevLoop ps c mn fuel 0 = 0 := by
  cases fuel <;> simp [nearestPrevLoop, Prev]

theorem nearestPrevLoop_step (ps : List ℚ) (c mn : ℚ) (fuel p : Nat) :
    nearestPrevLoop ps c mn (fuel + 1) (p + 1) =
      if posAt ps (p + 1) - c > mn then nearestPrevLoop ps c mn fuel p else p + 1 := by
  simp [nearestPrevLoop, Prev]

theorem nearestNextLoop_step (ps : List ℚ) (c mn : ℚ) (fuel near : Nat) :
    nearestNextLoop ps c mn (fuel + 1) near =
      if near + 1 < ps.length ∧ posAt ps (near + 1) - c ≤ mn then
        nearestNextLoop ps c mn fuel (near + 1) else near := by
  by_cases h : near + 1 < ps.length <;> simp [nearestNextLoop, Next, h]

/-- The first loop only moves towards the head. -/
theorem farthestPrevLoop_le (ps : List ℚ) (c mx : ℚ) :
    ∀ fuel far, farthestPrevLoop ps c mx fuel far ≤ far := by
  intro fuel
  induction fuel with
  | zero => intro far; simp [farthestPrevLoop]
  | succ fuel ih =>
    intro far
    cases far with
    | zero => simp [farthestPrevLoop_head]
    | succ p =>
      rw [farthestPrevLoop_step]
      split
      · exact Nat.le_succ_of_le (ih p)
      · exact le_refl _

/-- With fuel for every node before `far`, the first loop stops where its
condition is false: at the head, or where `Prev` is within the far bound. -/
theorem farthestPrevLoop_exit (ps : List ℚ) (c mx : ℚ) :
    ∀ fuel far, far ≤ fuel →
      farthestPrevLoop ps c mx fuel far = 0 ∨
      posAt ps (farthestPrevLoop ps c mx fuel far - 1) - c ≤ mx := by
  intro fuel
  induction fuel with
  | zero => intro far h; left; simp [farthestPrevLoop]; omega
  | succ fuel ih =>
    intro far h
    cases far with
    | zero => left; exact farthestPrevLoop_head ps c mx _
    | succ p =>
      rw [farthestPrevLoop_step]
      split
      · exact ih p (by omega)
      · rename_i hc
        right; simpa using hc

/-- The first loop does not move a pointer at which its condition is false. -/
theorem farthestPrevLoop_stay (ps : List ℚ) (c mx : ℚ) (fuel far : Nat)
    (h : far = 0 ∨ posAt ps (far - 1) - c ≤ mx) :
    farthestPrevLoop ps c mx fuel far = far := by
  cases fuel with
  | zero => simp [farthestPrevLoop]
  | succ fuel =>
    cases far with
    | zero => exact farthestPrevLoop_head ps c mx _
    | succ p =>
      rw [farthestPrevLoop_step]
      have hp : posAt ps p - c ≤ mx := by simpa using h
      simp [not_lt.mpr hp]

/-- The second loop only moves towards the tail and stays inside the sequence. -/
theorem farthestNextLoop_ge (ps : List ℚ) (c mx : ℚ) :
    ∀ fuel far, far ≤ farthestNextLoop ps c mx fuel far ∧
      (far < ps.length → farthestNextLoop ps c mx fuel far < ps.length) := by
  intro fuel
  induction fuel with
  | zero => intro far; simp [farthestNextLoop]
  | succ fuel ih =>
    intro far
    rw [farthestNextLoop_step]
    split
    · rename_i hc
      exact ⟨by have := (ih (far + 1)).1; omega, fun _ => (ih (far + 1)).2 hc.1⟩
    · exact ⟨le_refl _, id⟩

/-- With fuel for every node after `far`, the second loop stops where its
condition is false: at the tail, or at a node beyond the far bound. -/
theorem farthestNextLoop_exit (ps : List ℚ) (c mx : ℚ) :
    ∀ fuel far, ps.length ≤ fuel + far + 1 →
      farthestNextLoop ps c mx fuel far + 1 < ps.length →
      mx < posAt ps (farthestNextLoop ps c mx fuel far) - c := by
  intro fuel
  induction fuel with
  | zero =>
    intro far h h2
    simp [farthestNextLoop] at h2
    omega
  | succ fuel ih =>
    intro far h
    rw [farthestNextLoop_step]
    split
    · exact ih (far + 1) (by omega)
    · rename_i hc
      intro h2
      by_contra hn
      exact hc ⟨h2, not_lt.mp hn⟩

/-- Every node the second loop stepped over is within the far bound. -/
theorem farthestNextLoop_prev (ps : List ℚ) (c mx : ℚ) :
    ∀ fuel far, farthestNextLoop ps c mx fuel far = far ∨
      posAt ps (farthestNextLoop ps c mx fuel far - 1) - c ≤ mx := by
  intro fuel
  induction fuel with
  | zero => intro far; left; simp [farthestNextLoop]
  | succ fuel ih =>
    intro far
    rw [farthestNextLoop_step]
    split
    · rename_i hc
      rcases ih (far + 1) with h | h
      · right; rw [h]; simpa using hc.2
      · right; exact h
    · left; rfl

/-- The second loop does not move a pointer at which its condition is false. -/
theorem farthestNextLoop_stay (ps : List ℚ) (c mx : ℚ) (fuel far : Nat)
    (h : far + 1 < ps.length → mx < posAt ps far - c) :
    farthestNextLoop ps c mx fuel far = far := by
  cases fuel with
  | zero => simp [farthestNextLoop]
  | succ fuel =>
    rw [farthestNextLoop_step]
    split
    · rename_i hc
      exact absurd hc.2 (not_le.mpr (h hc.1))
    · rfl

/-- The third loop only moves towards the head. -/
theorem nearestPrevLoop_le (ps : List ℚ) (c mn : ℚ) :
    ∀ fuel near, nearestPrevLoop ps c mn fuel near ≤ near := by
  intro fuel
  induction fuel with
  | zero => intro near; simp [nearestPrevLoop]
  | succ fuel ih =>
    intro near
    cases near with
    | zero => simp [nearestPrevLoop_head]
    | succ p =>
      rw [nearestPrevLoop_step]
      split
      · exact Nat.le_succ_of_le (ih p)
      · exact le_refl _

/-- With fuel for every node before `near`, the third loop stops where its
condition is false: at the head, or at a node within the near bound. -/
theorem nearestPrevLoop_exit (ps : List ℚ) (c mn : ℚ) :
    ∀ fuel near, near ≤ fuel →
      nearestPrevLoop ps c mn fuel near = 0 ∨
      posAt ps (nearestPrevLoop ps c mn fuel near) - c ≤ mn := by
  intro fuel
  induction fuel with
  | zero => intro near h; left; simp [nearestPrevLoop]; omega
  | succ fuel ih =>
    intro near h
    cases near with
    | zero => left; exact nearestPrevLoop_head ps c mn _
    | succ p =>
      rw [nearestPrevLoop_step]
      split
      · exact ih p (by omega)
      · rename_i hc
        right; exact not_lt.mp hc

/-- The third loop does not move a pointer at which its condition is false. -/
theorem nearestPrevLoop_stay (ps : List ℚ) (c mn : ℚ) (fuel near : Nat)
    (h : near = 0 ∨ posAt ps near - c ≤ mn) :
    nearestPrevLoop ps c mn fuel near = near := by
  cases fuel with
  | zero => simp [nearestPrevLoop]
  | succ fuel =>
    cases near with
    | zero => exact nearestPrevLoop_head ps c mn _
    | succ p =>
      rw [nearestPrevLoop_step]
      have hp : posAt ps (p + 1) - c ≤ mn := by simpa using h
      simp [not_lt.mpr hp]

/-- The fourth loop only moves towards the tail and stays inside the sequence. -/
theorem nearestNextLoop_ge (ps : List ℚ) (c mn : ℚ) :
    ∀ fuel near, near ≤ nearestNextLoop ps c mn fuel near ∧
      (near < ps.length → nearestNextLoop ps c mn fuel near < ps.length) := by
  intro fuel
  induction fuel with
  | zero => intro near; simp [nearestNextLoop]
  | succ fuel ih =>
    intro near
    rw [nearestNextLoop_step]
    split
    · rename_i hc
      exact ⟨by have := (ih (near + 1)).1; omega, fun _ => (ih (near + 1)).2 hc.1⟩
    · exact ⟨le_refl _, id⟩

/-- With fuel for every node after `near`, the fourth loop stops where its
condition is false: at the tail, or where `Next` is beyond the near bound. -/
theorem nearestNextLoop_exit (ps : List ℚ) (c mn : ℚ) :
    ∀ fuel near, ps.length ≤ fuel + near + 1 →
      nearestNextLoop ps c mn fuel near + 1 < ps.length →
      mn < posAt ps (nearestNextLoop ps c mn fuel near + 1) - c := by
  intro fuel
  induction fuel with
  | zero =>
    intro near h h2
    simp [nearestNextLoop] at h2
    omega
  | succ fuel ih =>
    intro near h
    rw [nearestNextLoop_step]
    split
    · exact ih (near + 1) (by omega)
    · rename_i hc
      intro h2
      by_contra hn
      exact hc ⟨h2, not_lt.mp hn⟩

/-- Every node the fourth loop moved to is within the near bound. -/
theorem nearestNextLoop_at (ps : List ℚ) (c mn : ℚ) :
    ∀ fuel near, nearestNextLoop ps c mn fuel near = near ∨
      posAt ps (nearestNextLoop ps c mn fuel near) - c ≤ mn := by
  intro fuel
  induction fuel with
  | zero => intro near; left; simp [nearestNextLoop]
  | succ fuel ih =>
    intro near
    rw [nearestNextLoop_step]
    split
    · rename_i hc
      rcases ih (near + 1) with h | h
      · right; rw [h]; exact hc.2
      · right; exact h
    · left; rfl

/-- The fourth loop does not move a pointer at which its condition is false. -/
theorem nearestNextLoop_stay (ps : List ℚ) (c mn : ℚ) (fuel near : Nat)
    (h : near + 1 < ps.length → mn < posAt ps (near + 1) - c) :
    nearestNextLoop ps c mn fuel near = near := by
  cases fuel with
  | zero => simp [nearestNextLoop]
  | succ fuel =>
    rw [nearestNextLoop_step]
    split
    · rename_i hc
      exact absurd hc.2 (not_le.mpr (h hc.1))
    · rfl

/-! ## The pointers after the two loops of each side -/

theorem updateFarthest_lt (ps : List ℚ) (mx c : ℚ) (far : Nat) (h : far < ps.length) :
    updateFarthest ps mx c far < ps.length :=
  (farthestNextLoop_ge ps c mx _ _).2
    (lt_of_le_of_lt (farthestPrevLoop_le ps c mx _ _) h)

/-- After `Update`, `Farthest` is the head or its `Prev` is within the far bound. -/
theorem updateFarthest_prev (ps : List ℚ) (mx c : ℚ) (far : Nat) (h : far < ps.length) :
    updateFarthest ps mx c far = 0 ∨ posAt ps (updateFarthest ps mx c far - 1) - c ≤ mx := by
  unfold updateFarthest
  rcases farthestNextLoop_prev ps c mx ps.length
    (farthestPrevLoop ps c mx ps.length far) with h1 | h1
  · rw [h1]
    exact farthestPrevLoop_exit ps c mx _ _ (le_of_lt h)
  · right; exact h1

/-- After `Update`, `Farthest` is the tail or lies beyond the far bound. -/
theorem updateFarthest_exit (ps : List ℚ) (mx c : ℚ) (far : Nat)
    (h : updateFarthest ps mx c far + 1 < ps.length) :
    mx < posAt ps (updateFarthest ps mx c far) - c :=
  farthestNextLoop_exit ps c mx _ _ (by omega) h

/-- A `Farthest` whose `Prev` is within the far bound does not move back. -/
theorem updateFarthest_ge (ps : List ℚ) (mx c : ℚ) (far : Nat)
    (h : far = 0 ∨ posAt ps (far - 1) - c ≤ mx) :
    far ≤ updateFarthest ps mx c far := by
  unfold updateFarthest
  rw [farthestPrevLoop_stay ps c mx _ _ h]
  exact (farthestNextLoop_ge ps c mx _ _).1

/-- A `Farthest` at which both loop conditions are false does not move. -/
theorem updateFarthest_stay (ps : List ℚ) (mx c : ℚ) (far : Nat)
    (h1 : far = 0 ∨ posAt ps (far - 1) - c ≤ mx)
    (h2 : far + 1 < ps.length → mx < posAt ps far - c) :
    updateFarthest ps mx c far = far := by
  unfold updateFarthest
  rw [farthestPrevLoop_stay ps c mx _ _ h1, farthestNextLoop_stay ps c mx _ _ h2]

theorem updateNearest_lt (ps : List ℚ) (mn c : ℚ) (near : Nat) (h : near < ps.length) :
    updateNearest ps mn c near < ps.length :=
  (nearestNextLoop_ge ps c mn _ _).2
    (lt_of_le_of_lt (nearestPrevLoop_le ps c mn _ _) h)

/-- After `Update`, `Nearest` is the head or is within the near bound. -/
theorem updateNearest_at (ps : List ℚ) (mn c : ℚ) (near : Nat) (h : near < ps.length) :
    updateNearest ps mn c near = 0 ∨ posAt ps (updateNearest ps mn c near) - c ≤ mn := by
  unfold updateNearest
  rcases nearestNextLoop_at ps c mn ps.length
    (nearestPrevLoop ps c mn ps.length near) with h1 | h1
  · rw [h1]
    exact nearestPrevLoop_exit ps c mn _ _ (le_of_lt h)
  · right; exact h1

/-- After `Update`, `Nearest` is the tail or its `Next` lies beyond the near bound. -/
theorem updateNearest_exit (ps : List ℚ) (mn c : ℚ) (near : Nat)
    (h : updateNearest ps mn c near + 1 < ps.length) :
    mn < posAt ps (updateNearest ps mn c near + 1) - c :=
  nearestNextLoop_exit ps c mn _ _ (by omega) h

/-- A `Nearest` within the near bound does not move back. -/
theorem updateNearest_ge (ps : List ℚ) (mn c : ℚ) (near : Nat)
    (h : near = 0 ∨ posAt ps near - c ≤ mn) :
    near ≤ updateNearest ps mn c near := by
  unfold updateNearest
  rw [nearestPrevLoop_stay ps c mn _ _ h]
  exact (nearestNextLoop_ge ps c mn _ _).1

/-- A `Nearest` at which both loop conditions are false does not move. -/
theorem updateNearest_stay (ps : List ℚ) (mn c : ℚ) (near : Nat)
    (h1 : near = 0 ∨ posAt ps near - c ≤ mn)
    (h2 : near + 1 < ps.length → mn < posAt ps (near + 1) - c) :
    updateNearest ps mn c near = near := by
  unfold updateNearest
  rw [nearestPrevLoop_stay ps c mn _ _ h1, nearestNextLoop_stay ps c mn _ _ h2]

/-! ## Sorted sequences -/

/-- In a position-sorted sequence an earlier node has the smaller position. -/
theorem posAt_mono (ps : List ℚ) (hs : PositionSorted ps) (i j : Nat)
    (hij : i ≤ j) (hj : j < ps.length) : posAt ps i ≤ posAt ps j := by
  rcases Nat.eq_or_lt_of_le hij with h | h
  · rw [h]
  · have hi : i < ps.length := lt_trans h hj
    unfold posAt
    rw [List.getD_eq_getElem ps 0 hi, List.getD_eq_getElem ps 0 hj]
    exact (List.pairwise_iff_getElem.mp hs) i j hi hj h

/-- Every node before `Farthest` is within the far bound. -/
theorem before_updateFarthest (ps : List ℚ) (hs : PositionSorted ps) (mx c : ℚ)
    (far : Nat) (h : far < ps.length) (j : Nat) (hj : j < updateFarthest ps mx c far) :
    posAt ps j - c ≤ mx := by
  have hlt := updateFarthest_lt ps mx c far h
  rcases updateFarthest_prev ps mx c far h with h0 | h1
  · omega
  · have := posAt_mono ps hs j (updateFarthest ps mx c far - 1) (by omega) (by omega)
    linarith

/-- Every node after `Farthest` lies beyond the far bound. -/
theorem after_updateFarthest (ps : List ℚ) (hs : PositionSorted ps) (mx c : ℚ)
    (far : Nat) (j : Nat) (hj : updateFarthest ps mx c far < j) (hl : j < ps.length) :
    mx < posAt ps j - c := by
  have h1 := updateFarthest_exit ps mx c far (by omega)
  have := posAt_mono ps hs (updateFarthest ps mx c far) j (le_of_lt hj) hl
  linarith

/-- Every node before `Nearest` is within the near bound. -/
theorem before_updateNearest (ps : List ℚ) (hs : PositionSorted ps) (mn c : ℚ)
    (near : Nat) (h : near < ps.length) (j : Nat) (hj : j < updateNearest ps mn c near) :
    posAt ps j - c ≤ mn := by
  have hlt := updateNearest_lt ps mn c near h
  rcases updateNearest_at ps mn c near h with h0 | h1
  · omega
  · have := posAt_mono ps hs j (updateNearest ps mn c near) (le_of_lt hj) hlt
    linarith

/-- Every node after `Nearest` lies beyond the near bound. -/
theorem after_updateNearest (ps : List ℚ) (hs : PositionSorted ps) (mn c : ℚ)
    (near : Nat) (j : Nat) (hj : updateNearest ps mn c near < j) (hl : j < ps.length) :
    mn < posAt ps j - c := by
  have h1 := updateNearest_exit ps mn c near (by omega)
  have := posAt_mono ps hs (updateNearest ps mn c near + 1) j hj hl
  linarith

/-! ## The chain from `Farthest` to `Nearest` -/

theorem mem_chain (near j : Nat) :
    ∀ fuel b, near ≤ j → j ≤ b → b < fuel + near → j ∈ chain near fuel b := by
  intro fuel
  induction fuel with
  | zero => intro b h1 h2 h3; omega
  | succ fuel ih =>
    intro b h1 h2 h3
    unfold chain
    by_cases hb : b = near
    · simp [hb]; omega
    · have hp : Prev b = some (b - 1) := by
        unfold Prev; rw [if_neg (by omega)]
      simp only [hb, if_false, hp, List.mem_cons]
      by_cases hjb : j = b
      · left; exact hjb
      · right; exact ih (b - 1) h1 (by omega) (by omega)

/-- Every node between `Nearest` and `Farthest` in sequence order is on the chain. -/
theorem mem_windowChain (far near j : Nat) (h1 : near ≤ j) (h2 : j ≤ far) :
    j ∈ windowChain far near :=
  mem_chain near j (far + 1) far h1 h2 (by omega)

/-- A node in the band is between the updated pointers. -/
theorem inBand_between (ps : List ℚ) (hs : PositionSorted ps) (mn mx c : ℚ)
    (far near : Nat) (hn : near < ps.length)
    (j : Nat) (hj : j < ps.length) (hb : InBand mn mx c (posAt ps j)) :
    updateNearest ps mn c near ≤ j ∧ j ≤ updateFarthest ps mx c far := by
  constructor
  · by_contra hlt
    have := before_updateNearest ps hs mn c near hn j (by omega)
    exact absurd hb.1 (not_lt.mpr this)
  · by_contra hlt
    have := after_updateFarthest ps hs mx c far j (by omega) hj
    exact absurd hb.2 (not_le.mpr this)

/-! ## `Update` on seeded drawers -/

theorem barUpdate_seeded (bars : List Bar) (mn mx : ℚ) (d : BarDrawer) (c : ℚ)
    (far near : Nat) (hf : d.Farthest = some far) (hn : d.Nearest = some near) :
    BarDrawer.Update bars mn mx d c = some { d with
      Cursor := c
      Farthest := some (updateFarthest (barPositions bars) mx c far)
      Nearest := some (updateNearest (barPositions bars) mn c near) } := by
  simp [BarDrawer.Update, hf, hn]

theorem noteUpdate_seeded (notes : List Note) (mn mx : ℚ) (d : NoteDrawer) (c : ℚ)
    (far near : Nat) (hf : d.Farthest = some far) (hn : d.Nearest = some near) :
    NoteDrawer.Update notes mn mx d c = some { d with
      Cursor := c
      Farthest := some (updateFarthest (notePositions notes) mx c far)
      Nearest := some (updateNearest (notePositions notes) mn c near) } := by
  simp [NoteDrawer.Update, hf, hn]

theorem barPositions_length (bars : List Bar) : (barPositions bars).length = bars.length := by
  simp [barPositions]

theorem notePositions_length (notes : List Note) :
    (notePositions notes).length = notes.length := by
  simp [notePositions]

theorem PointsInto.exists_index {len : Nat} {p : Option Nat} (h : PointsInto len p) :
    ∃ i, p = some i ∧ i < len := by
  cases p with
  | none => exact absurd h (by simp [PointsInto])
  | some i => exact ⟨i, rfl, by simpa [PointsInto] using h⟩

/-! ## Claims on the window tracker -/

/-- Coverage on the positions of a sequence: a node in the band is between the
updated pointers and on the chain from one to the other. -/
theorem coverage_core (ps : List ℚ) (hs : PositionSorted ps) (mn mx c : ℚ)
    (far near : Nat) (hn : near < ps.length)
    (j : Nat) (hj : j < ps.length) (hb : InBand mn mx c (posAt ps j)) :
    updateNearest ps mn c near ≤ j ∧ j ≤ updateFarthest ps mx c far ∧
      j ∈ windowChain (updateFarthest ps mx c far) (updateNearest ps mn c near) := by
  have h := inBand_between ps hs mn mx c far near hn j hj hb
  exact ⟨h.1, h.2, mem_windowChain _ _ _ h.1 h.2⟩

/-- C1 (window coverage): on a position-sorted sequence, from any two non-nil
pointers into it and for any cursor, `BarDrawer.Update` and `NoteDrawer.Update`
succeed, and every node with `minPosition < Position - Cursor <= maxPosition`
lies on the chain `Farthest, Farthest.Prev, ..., Nearest` of the updated drawer,
at or after `Nearest` and at or before `Farthest` in sequence order.
The hypothesis `minPosition < maxPosition` of the claim is not needed. -/
theorem C1_window_coverage (bars : List Bar) (notes : List Note)
    (minPosition maxPosition cursor : ℚ) (db : BarDrawer) (dn : NoteDrawer)
    (hbs : PositionSorted (barPositions bars))
    (hns : PositionSorted (notePositions notes))
    (hbf : PointsInto bars.length db.Farthest) (hbn : PointsInto bars.length db.Nearest)
    (hnf : PointsInto notes.length dn.Farthest) (hnn : PointsInto notes.length dn.Nearest) :
    (∃ d far near, BarDrawer.Update bars minPosition maxPosition db cursor = some d ∧
      d.Farthest = some far ∧ d.Nearest = some near ∧
      ∀ j, j < bars.length →
        InBand minPosition maxPosition d.Cursor (posAt (barPositions bars) j) →
        near ≤ j ∧ j ≤ far ∧ j ∈ windowChain far near) ∧
    (∃ d far near, NoteDrawer.Update notes minPosition maxPosition dn cursor = some d ∧
      d.Farthest = some far ∧ d.Nearest = some near ∧
      ∀ j, j < notes.length →
        InBand minPosition maxPosition d.Cursor (posAt (notePositions notes) j) →
        near ≤ j ∧ j ≤ far ∧ j ∈ windowChain far near) := by
  obtain ⟨bf, hbf1, _⟩ := hbf.exists_index
  obtain ⟨bn, hbn1, hbn2⟩ := hbn.exists_index
  obtain ⟨nf, hnf1, _⟩ := hnf.exists_index
  obtain ⟨nn, hnn1, hnn2⟩ := hnn.exists_index
  constructor
  · refine ⟨_, _, _, barUpdate_seeded bars minPosition maxPosition db cursor
      bf bn hbf1 hbn1, rfl, rfl, ?_⟩
    intro j hj hb
    exact coverage_core (barPositions bars) hbs minPosition maxPosition cursor bf bn
      (by rw [barPositions_length]; exact hbn2) j
      (by rw [barPositions_length]; exact hj) hb
  · refine ⟨_, _, _, noteUpdate_seeded notes minPosition maxPosition dn cursor
      nf nn hnf1 hnn1, rfl, rfl, ?_⟩
    intro j hj hb
    exact coverage_core (notePositions notes) hns minPosition maxPosition cursor nf nn
      (by rw [notePositions_length]; exact hnn2) j
      (by rw [notePositions_length]; exact hj) hb

/-- Witness of C1: the example bars and notes, band `(-5, 5]`, cursor 12. -/
theorem C1_window_coverage_witness :
    (∃ d far near, BarDrawer.Update exampleBars (-5) 5 exampleBarDrawer 12 = some d ∧
      d.Farthest = some far ∧ d.Nearest = some near ∧
      ∀ j, j < exampleBars.length →
        InBand (-5) 5 d.Cursor (posAt (barPositions exampleBars) j) →
        near ≤ j ∧ j ≤ far ∧ j ∈ windowChain far near) ∧
    (∃ d far near, NoteDrawer.Update exampleNotes (-5) 5 exampleNoteDrawer 12 = some d ∧
      d.Farthest = some far ∧ d.Nearest = some near ∧
      ∀ j, j < exampleNotes.length →
        InBand (-5) 5 d.Cursor (posAt (notePositions exampleNotes) j) →
        near ≤ j ∧ j ≤ far ∧ j ∈ windowChain far near) :=
  C1_window_coverage exampleBars exampleNotes (-5) 5 12 exampleBarDrawer exampleNoteDrawer
    (by norm_num [PositionSorted, barPositions, exampleBars])
    (by norm_num [PositionSorted, notePositions, exampleNotes])
    (by simp [PointsInto, exampleBarDrawer, exampleBars])
    (by simp [PointsInto, exampleBarDrawer, exampleBars])
    (by simp [PointsInto, exampleNoteDrawer, exampleNotes])
    (by simp [PointsInto, exampleNoteDrawer, exampleNotes])

/-- Tightness on the positions of a sequence. -/
theorem tightness_core (ps : List ℚ) (hs : PositionSorted ps) (mn mx c : ℚ)
    (far near : Nat) (hf : far < ps.length)
    (j : Nat) (h1 : updateNearest ps mn c near < j) (h2 : j < updateFarthest ps mx c far) :
    mn ≤ posAt ps j - c ∧ posAt ps j - c ≤ mx := by
  have hlt := updateFarthest_lt ps mx c far hf
  exact ⟨le_of_lt (after_updateNearest ps hs mn c near j h1 (by omega)),
    before_updateFarthest ps hs mx c far hf j h2⟩

/-- C2 (window tightness): on a position-sorted sequence, from any two non-nil
pointers into it and for any cursor, after `BarDrawer.Update` and
`NoteDrawer.Update` every node strictly between `Nearest` and `Farthest` in
sequence order satisfies `minPosition <= Position - Cursor <= maxPosition`.
The hypothesis `minPosition < maxPosition` of the claim is not needed. -/
theorem C2_window_tightness (bars : List Bar) (notes : List Note)
    (minPosition maxPosition cursor : ℚ) (db : BarDrawer) (dn : NoteDrawer)
    (hbs : PositionSorted (barPositions bars))
    (hns : PositionSorted (notePositions notes))
    (hbf : PointsInto bars.length db.Farthest) (hbn : PointsInto bars.length db.Nearest)
    (hnf : PointsInto notes.length dn.Farthest) (hnn : PointsInto notes.length dn.Nearest) :
    (∃ d far near, BarDrawer.Update bars minPosition maxPosition db cursor = some d ∧
      d.Farthest = some far ∧ d.Nearest = some near ∧
      ∀ j, near < j → j < far →
        minPosition ≤ posAt (barPositions bars) j - d.Cursor ∧
        posAt (barPositions bars) j - d.Cursor ≤ maxPosition) ∧
    (∃ d far near, NoteDrawer.Update notes minPosition maxPosition dn cursor = some d ∧
      d.Farthest = some far ∧ d.Nearest = some near ∧
      ∀ j, near < j → j < far →
        minPosition ≤ posAt (notePositions notes) j - d.Cursor ∧
        posAt (notePositions notes) j - d.Cursor ≤ maxPosition) := by
  obtain ⟨bf, hbf1, hbf2⟩ := hbf.exists_index
  obtain ⟨bn, hbn1, _⟩ := hbn.exists_index
  obtain ⟨nf, hnf1, hnf2⟩ := hnf.exists_index
  obtain ⟨nn, hnn1, _⟩ := hnn.exists_index
  constructor
  · refine ⟨_, _, _, barUpdate_seeded bars minPosition maxPosition db cursor
      bf bn hbf1 hbn1, rfl, rfl, ?_⟩
    intro j h1 h2
    exact tightness_core (barPositions bars) hbs minPosition maxPosition cursor bf bn
      (by rw [barPositions_length]; exact hbf2) j h1 h2
  · refine ⟨_, _, _, noteUpdate_seeded notes minPosition maxPosition dn cursor
      nf nn hnf1 hnn1, rfl, rfl, ?_⟩
    intro j h1 h2
    exact tightness_core (notePositions notes) hns minPosition maxPosition cursor nf nn
      (by rw [notePositions_length]; exact hnf2) j h1 h2

/-- Witness of C2: the example bars and notes, band `(-15, 5]`, cursor 12. -/
theorem C2_window_tightness_witness :
    (∃ d far near, BarDrawer.Update exampleBars (-15) 5 exampleBarDrawer 12 = some d ∧
      d.Farthest = some far ∧ d.Nearest = some near ∧
      ∀ j, near < j → j < far →
        (-15 : ℚ) ≤ posAt (barPositions exampleBars) j - d.Cursor ∧
        posAt (barPositions exampleBars) j - d.Cursor ≤ 5) ∧
    (∃ d far near, NoteDrawer.Update exampleNotes (-15) 5 exampleNoteDrawer 12 = some d ∧
      d.Farthest = some far ∧ d.Nearest = some near ∧
      ∀ j, near < j → j < far →
        (-15 : ℚ) ≤ posAt (notePositions exampleNotes) j - d.Cursor ∧
        posAt (notePositions exampleNotes) j - d.Cursor ≤ 5) :=
  C2_window_tightness exampleBars exampleNotes (-15) 5 12 exampleBarDrawer exampleNoteDrawer
    (by norm_num [PositionSorted, barPositions, exampleBars])
    (by norm_num [PositionSorted, notePositions, exampleNotes])
    (by simp [PointsInto, exampleBarDrawer, exampleBars])
    (by simp [PointsInto, exampleBarDrawer, exampleBars])
    (by simp [PointsInto, exampleNoteDrawer, exampleNotes])
    (by simp [PointsInto, exampleNoteDrawer, exampleNotes])

/-- A larger cursor does not move `Farthest` back. -/
theorem farthest_monotone_core (ps : List ℚ) (mx c1 c2 : ℚ) (hc : c1 ≤ c2)
    (far : Nat) (hf : far < ps.length) :
    updateFarthest ps mx c1 far ≤ updateFarthest ps mx c2 (updateFarthest ps mx c1 far) := by
  apply updateFarthest_ge
  rcases updateFarthest_prev ps mx c1 far hf with h | h
  · left; exact h
  · right; linarith

/-- A larger cursor does not move `Nearest` back. -/
theorem nearest_monotone_core (ps : List ℚ) (mn c1 c2 : ℚ) (hc : c1 ≤ c2)
    (near : Nat) (hn : near < ps.length) :
    updateNearest ps mn c1 near ≤ updateNearest ps mn c2 (updateNearest ps mn c1 near) := by
  apply updateNearest_ge
  rcases updateNearest_at ps mn c1 near hn with h | h
  · left; exact h
  · right; linarith

/-- C3 (monotonic cursor gives monotonic pointers): for two cursors `c1 <= c2`,
from any two non-nil pointers into the sequence, `Update(c1)` followed by
`Update(c2)` leaves `Farthest` and `Nearest` at the same node as after the first
call or at a later one, for `BarDrawer` and for `NoteDrawer`.  Sortedness of the
sequence is not needed. -/
theorem C3_monotonic_pointers (bars : List Bar) (notes : List Note)
    (minPosition maxPosition c1 c2 : ℚ) (db : BarDrawer) (dn : NoteDrawer)
    (hc : c1 ≤ c2)
    (hbf : PointsInto bars.length db.Farthest) (hbn : PointsInto bars.length db.Nearest)
    (hnf : PointsInto notes.length dn.Farthest) (hnn : PointsInto notes.length dn.Nearest) :
    (∃ d1 d2 far1 near1 far2 near2,
      BarDrawer.Update bars minPosition maxPosition db c1 = some d1 ∧
      BarDrawer.Update bars minPosition maxPosition d1 c2 = some d2 ∧
      d1.Farthest = some far1 ∧ d1.Nearest = some near1 ∧
      d2.Farthest = some far2 ∧ d2.Nearest = some near2 ∧
      far1 ≤ far2 ∧ near1 ≤ near2) ∧
    (∃ d1 d2 far1 near1 far2 near2,
      NoteDrawer.Update notes minPosition maxPosition dn c1 = some d1 ∧
      NoteDrawer.Update notes minPosition maxPosition d1 c2 = some d2 ∧
      d1.Farthest = some far1 ∧ d1.Nearest = some near1 ∧
      d2.Farthest = some far2 ∧ d2.Nearest = some near2 ∧
      far1 ≤ far2 ∧ near1 ≤ near2) := by
  obtain ⟨bf, hbf1, hbf2⟩ := hbf.exists_index
  obtain ⟨bn, hbn1, hbn2⟩ := hbn.exists_index
  obtain ⟨nf, hnf1, hnf2⟩ := hnf.exists_index
  obtain ⟨nn, hnn1, hnn2⟩ := hnn.exists_index
  constructor
  · refine ⟨_, _, _, _, _, _,
      barUpdate_seeded bars minPosition maxPosition db c1 bf bn hbf1 hbn1,
      barUpdate_seeded bars minPosition maxPosition _ c2 _ _ rfl rfl,
      rfl, rfl, rfl, rfl, ?_, ?_⟩
    · exact farthest_monotone_core (barPositions bars) maxPosition c1 c2 hc bf
        (by rw [barPositions_length]; exact hbf2)
    · exact nearest_monotone_core (barPositions bars) minPosition c1 c2 hc bn
        (by rw [barPositions_length]; exact hbn2)
  · refine ⟨_, _, _, _, _, _,
      noteUpdate_seeded notes minPosition maxPosition dn c1 nf nn hnf1 hnn1,
      noteUpdate_seeded notes minPosition maxPosition _ c2 _ _ rfl rfl,
      rfl, rfl, rfl, rfl, ?_, ?_⟩
    · exact farthest_monotone_core (notePositions notes) maxPosition c1 c2 hc nf
        (by rw [notePositions_length]; exact hnf2)
    · exact nearest_monotone_core (notePositions notes) minPosition c1 c2 hc nn
        (by rw [notePositions_length]; exact hnn2)

/-- Witness of C3: the example bars and notes, band `(-5, 5]`, cursors 12 and 23. -/
theorem C3_monotonic_pointers_witness :
    (∃ d1 d2 far1 near1 far2 near2,
      BarDrawer.Update exampleBars (-5) 5 exampleBarDrawer 12 = some d1 ∧
      BarDrawer.Update exampleBars (-5) 5 d1 23 = some d2 ∧
      d1.Farthest = some far1 ∧ d1.Nearest = some near1 ∧
      d2.Farthest = some far2 ∧ d2.Nearest = some near2 ∧
      far1 ≤ far2 ∧ near1 ≤ near2) ∧
    (∃ d1 d2 far1 near1 far2 near2,
      NoteDrawer.Update exampleNotes (-5) 5 exampleNoteDrawer 12 = some d1 ∧
      NoteDrawer.Update exampleNotes (-5) 5 d1 23 = some d2 ∧
      d1.Farthest = some far1 ∧ d1.Nearest = some near1 ∧
      d2.Farthest = some far2 ∧ d2.Nearest = some near2 ∧
      far1 ≤ far2 ∧ near1 ≤ near2) :=
  C3_monotonic_pointers exampleBars exampleNotes (-5) 5 12 23
    exampleBarDrawer exampleNoteDrawer (by norm_num)
    (by simp [PointsInto, exampleBarDrawer, exampleBars])
    (by simp [PointsInto, exampleBarDrawer, exampleBars])
    (by simp [PointsInto, exampleNoteDrawer, exampleNotes])
    (by simp [PointsInto, exampleNoteDrawer, exampleNotes])

/-- C4 (idempotence): from any two non-nil pointers into the sequence and for any
cursor `c`, a second `Update(c)` returns the drawer of the first `Update(c)`
unchanged (`Farthest`, `Nearest`, `Cursor` and all other fields), for `BarDrawer`
and for `NoteDrawer`. -/
theorem C4_update_idempotent (bars : List Bar) (notes : List Note)
    (minPosition maxPosition c : ℚ) (db : BarDrawer) (dn : NoteDrawer)
    (hbf : PointsInto bars.length db.Farthest) (hbn : PointsInto bars.length db.Nearest)
    (hnf : PointsInto notes.length dn.Farthest) (hnn : PointsInto notes.length dn.Nearest) :
    (∃ d1, BarDrawer.Update bars minPosition maxPosition db c = some d1 ∧
      BarDrawer.Update bars minPosition maxPosition d1 c = some d1) ∧
    (∃ d1, NoteDrawer.Update notes minPosition maxPosition dn c = some d1 ∧
      NoteDrawer.Update notes minPosition maxPosition d1 c = some d1) := by
  obtain ⟨bf, hbf1, hbf2⟩ := hbf.exists_index
  obtain ⟨bn, hbn1, hbn2⟩ := hbn.exists_index
  obtain ⟨nf, hnf1, hnf2⟩ := hnf.exists_index
  obtain ⟨nn, hnn1, hnn2⟩ := hnn.exists_index
  rw [← barPositions_length] at hbf2 hbn2
  rw [← notePositions_length] at hnf2 hnn2
  constructor
  · refine ⟨_, barUpdate_seeded bars minPosition maxPosition db c bf bn hbf1 hbn1, ?_⟩
    rw [barUpdate_seeded bars minPosition maxPosition _ c _ _ rfl rfl]
    simp only
    rw [updateFarthest_stay (barPositions bars) maxPosition c _
        (updateFarthest_prev (barPositions bars) maxPosition c bf hbf2)
        (updateFarthest_exit (barPositions bars) maxPosition c bf),
      updateNearest_stay (barPositions bars) minPosition c _
        (updateNearest_at (barPositions bars) minPosition c bn hbn2)
        (updateNearest_exit (barPositions bars) minPosition c bn)]
  · refine ⟨_, noteUpdate_seeded notes minPosition maxPosition dn c nf nn hnf1 hnn1, ?_⟩
    rw [noteUpdate_seeded notes minPosition maxPosition _ c _ _ rfl rfl]
    simp only
    rw [updateFarthest_stay (notePositions notes) maxPosition c _
        (updateFarthest_prev (notePositions notes) maxPosition c nf hnf2)
        (updateFarthest_exit (notePositions notes) maxPosition c nf),
      updateNearest_stay (notePositions notes) minPosition c _
        (updateNearest_at (notePositions notes) minPosition c nn hnn2)
        (updateNearest_exit (notePositions notes) minPosition c nn)]

/-- Witness of C4: the example bars and notes, band `(-5, 5]`, cursor 12. -/
theorem C4_update_idempotent_witness :
    (∃ d1, BarDrawer.Update exampleBars (-5) 5 exampleBarDrawer 12 = some d1 ∧
      BarDrawer.Update exampleBars (-5) 5 d1 12 = some d1) ∧
    (∃ d1, NoteDrawer.Update exampleNotes (-5) 5 exampleNoteDrawer 12 = some d1 ∧
      NoteDrawer.Update exampleNotes (-5) 5 d1 12 = some d1) :=
  C4_update_idempotent exampleBars exampleNotes (-5) 5 12 exampleBarDrawer exampleNoteDrawer
    (by simp [PointsInto, exampleBarDrawer, exampleBars])
    (by simp [PointsInto, exampleBarDrawer, exampleBars])
    (by simp [PointsInto, exampleNoteDrawer, exampleNotes])
    (by simp [PointsInto, exampleNoteDrawer, exampleNotes])

/-- On a position-sorted sequence, `Farthest` after `Update` is the `Next` of the
last node within the far bound, or that node when it is the tail. -/
theorem farthest_core (ps : List ℚ) (hs : PositionSorted ps) (mx c : ℚ)
    (far : Nat) (hf : far < ps.length) (last : Nat) (h1 : last < ps.length)
    (h2 : posAt ps last - c ≤ mx)
    (h3 : ∀ j, last < j → j < ps.length → mx < posAt ps j - c) :
    updateFarthest ps mx c far = (Next ps.length last).getD last := by
  have hlt := updateFarthest_lt ps mx c far hf
  have hle : last ≤ updateFarthest ps mx c far := by
    by_contra hn
    have := after_updateFarthest ps hs mx c far last (by omega) h1
    linarith
  rcases Nat.eq_or_lt_of_le hle with he | hl
  · have htail : ¬ (last + 1 < ps.length) := by
      intro hn
      have := updateFarthest_exit ps mx c far (by omega)
      rw [← he] at this
      linarith
    simp [Next, htail, ← he]
  · have hnext : updateFarthest ps mx c far = last + 1 := by
      by_contra hne
      have hb := before_updateFarthest ps hs mx c far hf (last + 1) (by omega)
      have ha := h3 (last + 1) (by omega) (by omega)
      linarith
    have hin : last + 1 < ps.length := by omega
    simp [Next, hin, hnext]

/-- C5, as amended: on a position-sorted sequence, from any two non-nil pointers
into it, if `last` is the outermost node with `Position - Cursor <= maxPosition`
(it satisfies the bound and every later node does not), then after
`BarDrawer.Update` and `NoteDrawer.Update` the pointer `Farthest` is the `Next`
of `last`, or `last` itself when `last` is the tail. -/
theorem C5_farthest_is_next_of_outermost (bars : List Bar) (notes : List Note)
    (minPosition maxPosition cursor : ℚ) (db : BarDrawer) (dn : NoteDrawer)
    (lastBar lastNote : Nat)
    (hbs : PositionSorted (barPositions bars))
    (hns : PositionSorted (notePositions notes))
    (hbf : PointsInto bars.length db.Farthest) (hbn : PointsInto bars.length db.Nearest)
    (hnf : PointsInto notes.length dn.Farthest) (hnn : PointsInto notes.length dn.Nearest)
    (hb1 : lastBar < bars.length)
    (hb2 : posAt (barPositions bars) lastBar - cursor ≤ maxPosition)
    (hb3 : ∀ j, lastBar < j → j < bars.length →
      maxPosition < posAt (barPositions bars) j - cursor)
    (hn1 : lastNote < notes.length)
    (hn2 : posAt (notePositions notes) lastNote - cursor ≤ maxPosition)
    (hn3 : ∀ j, lastNote < j → j < notes.length →
      maxPosition < posAt (notePositions notes) j - cursor) :
    (∃ d, BarDrawer.Update bars minPosition maxPosition db cursor = some d ∧
      d.Farthest = some ((Next bars.length lastBar).getD lastBar)) ∧
    (∃ d, NoteDrawer.Update notes minPosition maxPosition dn cursor = some d ∧
      d.Farthest = some ((Next notes.length lastNote).getD lastNote)) := by
  obtain ⟨bf, hbf1, hbf2⟩ := hbf.exists_index
  obtain ⟨bn, hbn1, _⟩ := hbn.exists_index
  obtain ⟨nf, hnf1, hnf2⟩ := hnf.exists_index
  obtain ⟨nn, hnn1, _⟩ := hnn.exists_index
  rw [← barPositions_length] at hbf2 hb1 hb3
  rw [← notePositions_length] at hnf2 hn1 hn3
  constructor
  · refine ⟨_, barUpdate_seeded bars minPosition maxPosition db cursor
      bf bn hbf1 hbn1, ?_⟩
    simp only
    rw [farthest_core (barPositions bars) hbs maxPosition cursor bf hbf2 lastBar hb1 hb2 hb3,
      barPositions_length]
  · refine ⟨_, noteUpdate_seeded notes minPosition maxPosition dn cursor
      nf nn hnf1 hnn1, ?_⟩
    simp only
    rw [farthest_core (notePositions notes) hns maxPosition cursor nf hnf2 lastNote
      hn1 hn2 hn3, notePositions_length]

/-- Witness of C5 as amended: the example bars and notes, band `(-5, 5]`, cursor 12;
the outermost node within the far bound is node 1, and `Farthest` becomes node 2. -/
theorem C5_farthest_is_next_of_outermost_witness :
    (∃ d, BarDrawer.Update exampleBars (-5) 5 exampleBarDrawer 12 = some d ∧
      d.Farthest = some ((Next exampleBars.length 1).getD 1)) ∧
    (∃ d, NoteDrawer.Update exampleNotes (-5) 5 exampleNoteDrawer 12 = some d ∧
      d.Farthest = some ((Next exampleNotes.length 1).getD 1)) :=
  C5_farthest_is_next_of_outermost exampleBars exampleNotes (-5) 5 12
    exampleBarDrawer exampleNoteDrawer 1 1
    (by norm_num [PositionSorted, barPositions, exampleBars])
    (by norm_num [PositionSorted, notePositions, exampleNotes])
    (by simp [PointsInto, exampleBarDrawer, exampleBars])
    (by simp [PointsInto, exampleBarDrawer, exampleBars])
    (by simp [PointsInto, exampleNoteDrawer, exampleNotes])
    (by simp [PointsInto, exampleNoteDrawer, exampleNotes])
    (by simp [exampleBars])
    (by norm_num [posAt, barPositions, exampleBars])
    (by
      intro j h1 h2
      simp only [exampleBars, List.length_cons, List.length_nil] at h2
      interval_cases j <;> norm_num [posAt, barPositions, exampleBars])
    (by simp [exampleNotes])
    (by norm_num [posAt, notePositions, exampleNotes])
    (by
      intro j h1 h2
      simp only [exampleNotes, List.length_cons, List.length_nil] at h2
      interval_cases j <;> norm_num [posAt, notePositions, exampleNotes])

/-- Counterexample to C5 as stated: on the example bars and notes with band
`(-5, 5]` and cursor 0, node 0 is within the far bound, yet `Farthest` after
`Update` is node 1, whose `Position - Cursor` is 10, beyond `maxPosition`. -/
theorem C5_counterexample :
    (PositionSorted (barPositions exampleBars) ∧
      posAt (barPositions exampleBars) 0 - 0 ≤ 5 ∧
      ∃ d, BarDrawer.Update exampleBars (-5) 5 exampleBarDrawer 0 = some d ∧
        d.Farthest = some 1 ∧ ¬ (posAt (barPositions exampleBars) 1 - d.Cursor ≤ 5)) ∧
    (PositionSorted (notePositions exampleNotes) ∧
      posAt (notePositions exampleNotes) 0 - 0 ≤ 5 ∧
      ∃ d, NoteDrawer.Update exampleNotes (-5) 5 exampleNoteDrawer 0 = some d ∧
        d.Farthest = some 1 ∧ ¬ (posAt (notePositions exampleNotes) 1 - d.Cursor ≤ 5)) := by
  refine ⟨⟨by norm_num [PositionSorted, barPositions, exampleBars],
      by norm_num [posAt, barPositions, exampleBars],
      _, barUpdate_seeded exampleBars (-5) 5 exampleBarDrawer 0 0 0 rfl rfl, ?_, ?_⟩,
    ⟨by norm_num [PositionSorted, notePositions, exampleNotes],
      by norm_num [posAt, notePositions, exampleNotes],
      _, noteUpdate_seeded exampleNotes (-5) 5 exampleNoteDrawer 0 3 0 rfl rfl, ?_, ?_⟩⟩
  · norm_num [updateFarthest, farthestNextLoop, farthestPrevLoop, Prev, Next, posAt,
      barPositions, exampleBars]
  · norm_num [posAt, barPositions, exampleBars]
  · norm_num [updateFarthest, farthestNextLoop, farthestPrevLoop, Prev, Next, posAt,
      notePositions, exampleNotes]
  · norm_num [posAt, notePositions, exampleNotes]

/-! ## Claims on the key drawer -/

/-- The first loop of `KeyDrawer.Update` at one key. -/
theorem decrement_getD (cds : List Int) (k : Nat) :
    (KeyDrawer.decrement cds).getD k 0 =
      if cds.getD k 0 > 0 then cds.getD k 0 - 1 else cds.getD k 0 := by
  unfold KeyDrawer.decrement
  rw [List.getD_eq_getElem?_getD, List.getD_eq_getElem?_getD, List.getElem?_map]
  cases h : cds[k]? <;> simp

theorem decrement_length (cds : List Int) :
    (KeyDrawer.decrement cds).length = cds.length := by
  simp [KeyDrawer.decrement]

theorem getD_set_ne (cds : List Int) (k i : Nat) (v : Int) (h : k ≠ i) :
    (cds.set k v).getD i 0 = cds.getD i 0 := by
  simp [List.getD_eq_getElem?_getD, List.getElem?_set, h]

theorem getD_set_self (cds : List Int) (k : Nat) (v : Int) (h : k < cds.length) :
    (cds.set k v).getD k 0 = v := by
  simp [List.getD_eq_getElem?_getD, List.getElem?_set, h]

/-- The second loop of `KeyDrawer.Update` succeeds when the slices are long
enough, keeps the number of countdowns, and sets exactly the countdowns of the
keys with a rising edge. -/
theorem risingEdges_spec (minCountdown : Int) (lp : List Bool) :
    ∀ (ps : List Bool) (k : Nat) (cds : List Int),
      k + ps.length ≤ lp.length → k + ps.length ≤ cds.length →
      ∃ out, KeyDrawer.risingEdges minCountdown lp k ps cds = some out ∧
        out.length = cds.length ∧
        ∀ i, out.getD i 0 =
          if k ≤ i ∧ lp.getD i false = false ∧ ps.getD (i - k) false = true
          then minCountdown else cds.getD i 0 := by
  intro ps
  induction ps with
  | nil =>
    intro k cds _ _
    exact ⟨cds, by simp [KeyDrawer.risingEdges], rfl, by simp⟩
  | cons now rest ih =>
    intro k cds h1 h2
    simp only [List.length_cons] at h1 h2
    have hk : k < lp.length := by omega
    have hkc : k < cds.length := by omega
    have hlk : lp[k]? = some (lp.getD k false) := by
      rw [List.getD_eq_getElem?_getD, List.getElem?_eq_getElem hk]; simp
    have hstep : ∀ i, k < i →
        ((k + 1 ≤ i ∧ lp.getD i false = false ∧ rest.getD (i - (k + 1)) false = true) ↔
          (k ≤ i ∧ lp.getD i false = false ∧ (now :: rest).getD (i - k) false = true)) := by
      intro i hi
      have hsub : i - k = (i - (k + 1)) + 1 := by omega
      rw [hsub, List.getD_cons_succ]
      constructor
      · intro h; exact ⟨by omega, h.2⟩
      · intro h; exact ⟨by omega, h.2⟩
    have hhead : (now :: rest).getD (k - k) false = now := by simp
    unfold KeyDrawer.risingEdges
    rw [hlk]
    simp only
    by_cases hedge : (!(lp.getD k false) && now) = true
    · rw [if_pos hedge, if_pos hkc]
      obtain ⟨out, ho1, ho2, ho3⟩ := ih (k + 1) (cds.set k minCountdown)
        (by omega) (by rw [List.length_set]; omega)
      refine ⟨out, ho1, by rw [ho2, List.length_set], ?_⟩
      intro i
      rw [ho3 i]
      simp only [Bool.and_eq_true, Bool.not_eq_true'] at hedge
      rcases Nat.lt_trichotomy i k with hi | hi | hi
      · rw [if_neg (fun h => absurd h.1 (by omega)), if_neg (fun h => absurd h.1 (by omega)),
          getD_set_ne cds k i minCountdown (by omega)]
      · subst hi
        rw [if_neg (fun h => absurd h.1 (by omega)), getD_set_self cds i minCountdown hkc,
          if_pos ⟨le_refl _, hedge.1, by rw [hhead]; exact hedge.2⟩]
      · rw [getD_set_ne cds k i minCountdown (by omega)]
        exact if_congr (hstep i hi) rfl rfl
    · rw [if_neg hedge]
      obtain ⟨out, ho1, ho2, ho3⟩ := ih (k + 1) cds (by omega) (by omega)
      refine ⟨out, ho1, ho2, ?_⟩
      intro i
      rw [ho3 i]
      rcases Nat.lt_trichotomy i k with hi | hi | hi
      · rw [if_neg (fun h => absurd h.1 (by omega)), if_neg (fun h => absurd h.1 (by omega))]
      · subst hi
        have hno : ¬ (i ≤ i ∧ lp.getD i false = false ∧
            (now :: rest).getD (i - i) false = true) := by
          intro hh
          apply hedge
          rw [hhead] at hh
          rw [hh.2.1, hh.2.2]
          rfl
        rw [if_neg (fun h => absurd h.1 (by omega)), if_neg hno]
      · exact if_congr (hstep i hi) rfl rfl

/-- One `KeyDrawer.Update` with slices of the same length `n`: it succeeds, keeps
`MinCountdown`, the sprites and the number of countdowns, stores the signals, and
the countdown of key `k` is `MinCountdown` on a rising edge and the old value
decremented if positive otherwise. -/
theorem keyUpdate_spec (d : KeyDrawer) (n : Nat) (lp ps : List Bool)
    (hc : d.Countdowns.length = n) (hl : lp.length = n) (hp : ps.length = n) :
    ∃ d1, d.Update lp ps = some d1 ∧ d1.MinCountdown = d.MinCountdown ∧
      d1.KeyUpSprites = d.KeyUpSprites ∧ d1.KeyDownSprites = d.KeyDownSprites ∧
      d1.pressed = ps ∧ d1.lastPressed = lp ∧ d1.Countdowns.length = n ∧
      ∀ k, d1.Countdowns.getD k 0 =
        if lp.getD k false = false ∧ ps.getD k false = true then d.MinCountdown
        else if d.Countdowns.getD k 0 > 0 then d.Countdowns.getD k 0 - 1
        else d.Countdowns.getD k 0 := by
  obtain ⟨out, ho1, ho2, ho3⟩ := risingEdges_spec d.MinCountdown lp ps 0
    (KeyDrawer.decrement d.Countdowns) (by omega) (by rw [decrement_length]; omega)
  refine ⟨{ d with lastPressed := lp, pressed := ps, Countdowns := out }, ?_, rfl, rfl, rfl,
    rfl, rfl, ?_, ?_⟩
  · simp [KeyDrawer.Update, ho1]
  · simp only; rw [ho2, decrement_length, hc]
  · intro k
    simp only
    rw [ho3 k, decrement_getD]
    simp

/-- The loop of `KeyDrawer.Draw` succeeds when the slices are long enough, and
draws for each key the down sprite if the key is pressed or its countdown is
positive, the up sprite otherwise. -/
theorem keyDrawLoop_spec (d : KeyDrawer) :
    ∀ (ps : List Bool) (k : Nat), k + ps.length ≤ d.Countdowns.length →
      k + ps.length ≤ d.KeyUpSprites.length → k + ps.length ≤ d.KeyDownSprites.length →
      ∃ calls, KeyDrawer.drawLoop d k ps = some calls ∧
        ∀ i, i < ps.length → calls[i]? =
          (if ps.getD i false = true ∨ d.Countdowns.getD (k + i) 0 > 0
            then d.KeyDownSprites[k + i]? else d.KeyUpSprites[k + i]?).map
            (fun s => (⟨s, none⟩ : DrawCall)) := by
  intro ps
  induction ps with
  | nil =>
    intro k _ _ _
    exact ⟨[], by simp [KeyDrawer.drawLoop], by simp⟩
  | cons p rest ih =>
    intro k h1 h2 h3
    simp only [List.length_cons] at h1 h2 h3
    obtain ⟨calls, hc1, hc2⟩ := ih (k + 1) (by omega) (by omega) (by omega)
    have hkc : k < d.Countdowns.length := by omega
    have hku : k < d.KeyUpSprites.length := by omega
    have hkd : k < d.KeyDownSprites.length := by omega
    have hcd : d.Countdowns[k]? = some (d.Countdowns.getD k 0) := by
      rw [List.getD_eq_getElem?_getD, List.getElem?_eq_getElem hkc]; simp
    have hup : d.KeyUpSprites[k]? = some (d.KeyUpSprites.get ⟨k, hku⟩) := by
      rw [List.getElem?_eq_getElem hku]; rfl
    have hdn : d.KeyDownSprites[k]? = some (d.KeyDownSprites.get ⟨k, hkd⟩) := by
      rw [List.getElem?_eq_getElem hkd]; rfl
    have hval : KeyDrawer.drawLoop d k (p :: rest) =
        some (⟨if p = true ∨ d.Countdowns.getD k 0 > 0 then d.KeyDownSprites.get ⟨k, hkd⟩
          else d.KeyUpSprites.get ⟨k, hku⟩, none⟩ :: calls) := by
      unfold KeyDrawer.drawLoop
      rw [hc1, hcd, hup, hdn]
      generalize d.Countdowns.getD k 0 = c
      cases p <;> by_cases hc : c > 0 <;> simp [hc]
    refine ⟨_, hval, ?_⟩
    intro i hi
    cases i with
    | zero =>
      simp only [List.getD_cons_zero, Nat.add_zero, List.getElem?_cons_zero, hup, hdn]
      split_ifs <;> rfl
    | succ i =>
      rw [List.getElem?_cons_succ, List.getD_cons_succ, show k + (i + 1) = k + 1 + i by omega]
      exact hc2 i (by simpa using hi)

/-- The method `KeyDrawer.Draw` on a drawer whose slices all have length `n`. -/
theorem keyDraw_spec (d : KeyDrawer) (n : Nat) (hc : d.Countdowns.length = n)
    (hu : d.KeyUpSprites.length = n) (hd : d.KeyDownSprites.length = n)
    (hp : d.pressed.length = n) :
    ∃ calls, d.Draw = some calls ∧
      ∀ k, k < n → calls[k]? =
        (if d.pressed.getD k false = true ∨ d.Countdowns.getD k 0 > 0
          then d.KeyDownSprites[k]? else d.KeyUpSprites[k]?).map
          (fun s => (⟨s, none⟩ : DrawCall)) := by
  obtain ⟨calls, h1, h2⟩ := keyDrawLoop_spec d d.pressed 0 (by omega) (by omega) (by omega)
  refine ⟨calls, h1, ?_⟩
  intro k hk
  have := h2 k (by omega)
  simpa using this

/-- Ticks on which key `k` is not pressed: the drawer keeps its sizes, and the
countdown of key `k` goes down by one per tick until it is zero. -/
theorem keyRun_released (n k : Nat) :
    ∀ (later : List (List Bool × List Bool)) (d : KeyDrawer),
      d.Countdowns.length = n → d.pressed.length = n → 0 ≤ d.Countdowns.getD k 0 →
      (∀ t ∈ later, t.1.length = n ∧ t.2.length = n ∧ t.2.getD k false = false) →
      ∃ d1, d.run later = some d1 ∧ d1.MinCountdown = d.MinCountdown ∧
        d1.KeyUpSprites = d.KeyUpSprites ∧ d1.KeyDownSprites = d.KeyDownSprites ∧
        d1.Countdowns.length = n ∧ d1.pressed.length = n ∧
        d1.Countdowns.getD k 0 = max (d.Countdowns.getD k 0 - later.length) 0 ∧
        (later ≠ [] → d1.pressed.getD k false = false) ∧ (later = [] → d1 = d) := by
  intro later
  induction later with
  | nil =>
    intro d hc hp h0 _
    refine ⟨d, rfl, rfl, rfl, rfl, hc, hp, ?_, by simp, by simp⟩
    simp only [List.length_nil, Nat.cast_zero, sub_zero]
    exact (max_eq_left h0).symm
  | cons t rest ih =>
    intro d hc hp h0 hall
    obtain ⟨lp, ps⟩ := t
    have ht := hall (lp, ps) (List.mem_cons_self _ _)
    simp only at ht
    obtain ⟨d1, hu1, hu2, hu3, hu4, hu5, _, hu7, hu8⟩ :=
      keyUpdate_spec d n lp ps hc ht.1 ht.2.1
    have hcd : d1.Countdowns.getD k 0 =
        if d.Countdowns.getD k 0 > 0 then d.Countdowns.getD k 0 - 1
        else d.Countdowns.getD k 0 := by
      rw [hu8 k, if_neg]
      intro hh
      rw [ht.2.2] at hh
      exact absurd hh.2 (by simp)
    have h01 : 0 ≤ d1.Countdowns.getD k 0 := by
      rw [hcd]; split_ifs <;> omega
    obtain ⟨d2, hr1, hr2, hr3, hr4, hr5, hr6, hr7, hr8, hr9⟩ :=
      ih d1 hu7 (by rw [hu5]; exact ht.2.1) h01
        (fun t ht1 => hall t (List.mem_cons_of_mem _ ht1))
    refine ⟨d2, ?_, by rw [hr2, hu2], by rw [hr3, hu3], by rw [hr4, hu4], hr5, hr6, ?_, ?_, ?_⟩
    · simp [KeyDrawer.run, hu1, hr1]
    · rw [hr7, hcd]
      simp only [List.length_cons, Nat.cast_add, Nat.cast_one]
      have hm : (0 : Int) ≤ (rest.length : Int) := Int.natCast_nonneg _
      generalize d.Countdowns.getD k 0 = c at h0 ⊢
      generalize (rest.length : Int) = m at hm ⊢
      split_ifs with hpos
      · congr 1; omega
      · have hc0 : c = 0 := by omega
        subst hc0
        rw [max_eq_right (by omega), max_eq_right (by omega)]
    · intro _
      by_cases hrest : rest = []
      · rw [hr9 hrest, hu5]; exact ht.2.2
      · exact hr8 hrest
    · intro h; simp at h

/-- C6, as amended (key sustain): for every key `k` and `MinCountdown >= 1`, if
`KeyDrawer.Update` sees a rising edge on `k` at one tick and `pressed[k]` is
false on every later tick, then `KeyDrawer.Draw` draws the down sprite of `k` on
the press tick and on each of the first `MinCountdown - 1` ticks that follow, and
the up sprite from the `MinCountdown`-th following tick on: after `later.length`
further ticks the sprite is the down sprite exactly when
`later.length < MinCountdown`.  All slices have length `n`. -/
theorem C6_key_sustain (d : KeyDrawer) (n k : Nat) (lastPressed pressed : List Bool)
    (later : List (List Bool × List Bool))
    (hk : k < n) (hmin : 1 ≤ d.MinCountdown)
    (hc : d.Countdowns.length = n) (hu : d.KeyUpSprites.length = n)
    (hd : d.KeyDownSprites.length = n)
    (hl : lastPressed.length = n) (hp : pressed.length = n)
    (hlast : lastPressed[k]? = some false) (hnow : pressed[k]? = some true)
    (hlater : ∀ t ∈ later, t.1.length = n ∧ t.2.length = n ∧ t.2[k]? = some false) :
    ∃ d1 calls, d.run ((lastPressed, pressed) :: later) = some d1 ∧
      d1.Draw = some calls ∧
      calls[k]? =
        (if (later.length : Int) < d.MinCountdown then d.KeyDownSprites[k]?
          else d.KeyUpSprites[k]?).map (fun s => (⟨s, none⟩ : DrawCall)) := by
  have hlast1 : lastPressed.getD k false = false := by
    rw [List.getD_eq_getElem?_getD, hlast]; rfl
  have hnow1 : pressed.getD k false = true := by
    rw [List.getD_eq_getElem?_getD, hnow]; rfl
  obtain ⟨d1, hu1, hu2, hu3, hu4, hu5, _, hu7, hu8⟩ :=
    keyUpdate_spec d n lastPressed pressed hc hl hp
  have hcd : d1.Countdowns.getD k 0 = d.MinCountdown := by
    rw [hu8 k, if_pos ⟨hlast1, hnow1⟩]
  obtain ⟨d2, hr1, hr2, hr3, hr4, hr5, hr6, hr7, hr8, hr9⟩ :=
    keyRun_released n k later d1 hu7 (by rw [hu5]; exact hp) (by rw [hcd]; omega)
      (fun t ht => ⟨(hlater t ht).1, (hlater t ht).2.1, by
        rw [List.getD_eq_getElem?_getD, (hlater t ht).2.2]; rfl⟩)
  obtain ⟨calls, hd1, hd2⟩ := keyDraw_spec d2 n hr5 (by rw [hr3, hu3]; exact hu)
    (by rw [hr4, hu4]; exact hd) hr6
  refine ⟨d2, calls, by simp [KeyDrawer.run, hu1, hr1], hd1, ?_⟩
  rw [hd2 k hk, hr3, hr4, hu3, hu4]
  congr 1
  apply if_congr _ rfl rfl
  by_cases hnil : later = []
  · subst hnil
    rw [hr9 rfl, hu5, hnow1]
    simp only [List.length_nil, Nat.cast_zero, true_or, true_iff]
    omega
  · rw [hr8 hnil, hr7, hcd]
    have hm : (0 : Int) ≤ (later.length : Int) := Int.natCast_nonneg _
    generalize (later.length : Int) = m at hm ⊢
    constructor
    · intro h
      rcases h with h | h
      · exact absurd h (by simp)
      · by_contra hn
        rw [max_eq_right (by omega)] at h
        omega
    · intro h
      right
      rw [max_eq_left (by omega)]
      omega

/-- Witness of C6 as amended: two keys, `MinCountdown = 3`, key 0 is tapped and
two further ticks follow, on which the down sprite of key 0 is still drawn. -/
theorem C6_key_sustain_witness :
    ∃ d1 calls, exampleKeyDrawer2.run (([false, false], [true, false]) ::
        [([true, false], [false, true]), ([false, true], [false, false])]) = some d1 ∧
      d1.Draw = some calls ∧
      calls[0]? =
        (if (([([true, false], [false, true]), ([false, true], [false, false])] :
              List (List Bool × List Bool)).length : Int) < exampleKeyDrawer2.MinCountdown
          then exampleKeyDrawer2.KeyDownSprites[0]?
          else exampleKeyDrawer2.KeyUpSprites[0]?).map (fun s => (⟨s, none⟩ : DrawCall)) :=
  C6_key_sustain exampleKeyDrawer2 2 0 [false, false] [true, false]
    [([true, false], [false, true]), ([false, true], [false, false])]
    (by decide) (by decide) rfl rfl rfl rfl rfl rfl rfl (by decide)

/-- Counterexample to C6 as stated: with `MinCountdown = 1`, a rising edge on key
0 followed by one tick on which the key is not pressed; on that tick, the first
of the `MinCountdown` ticks after the press tick, `Draw` submits the up sprite of
key 0, which is not its down sprite. -/
theorem C6_counterexample :
    exampleKeyDrawer.MinCountdown = 1 ∧
    (exampleKeyDrawer.run [([false], [true]), ([true], [false])]).bind KeyDrawer.Draw =
      some [⟨exampleSprite 10, none⟩] ∧
    exampleKeyDrawer.KeyUpSprites = [exampleSprite 10] ∧
    exampleKeyDrawer.KeyDownSprites = [exampleSprite 11] ∧
    exampleSprite 10 ≠ exampleSprite 11 := by
  refine ⟨rfl, ?_, rfl, rfl, ?_⟩
  · simp [KeyDrawer.run, KeyDrawer.Update, KeyDrawer.risingEdges, KeyDrawer.decrement,
      KeyDrawer.Draw, KeyDrawer.drawLoop, exampleKeyDrawer]
  · simp [exampleSprite]

/-! ## Claims on the judgment drawer, the long-note body and the nil guards -/

/-- C7 (judgment pre-emption): for every drawer state and every judgment `w` with
`w.Valid()` true, after `JudgmentDrawer.Update(w)` the stored `Judgment` is `w`
and `Countdown` is `MaxCountdown`, which `Update` does not change. -/
theorem C7_judgment_preemption (valid : Judgment → Bool) (d : JudgmentDrawer)
    (w : Judgment) (hv : valid w = true) :
    (JudgmentDrawer.Update valid d w).Judgment = w ∧
    (JudgmentDrawer.Update valid d w).Countdown = d.MaxCountdown ∧
    (JudgmentDrawer.Update valid d w).MaxCountdown = d.MaxCountdown := by
  unfold JudgmentDrawer.Update
  simp only [hv, if_true]
  split <;> simp

/-- Witness of C7: tier 40 is showing with 55 of 60 ticks left when tier 20 arrives. -/
theorem C7_judgment_preemption_witness :
    (JudgmentDrawer.Update exampleValid exampleJudgmentDrawer ⟨20⟩).Judgment = ⟨20⟩ ∧
    (JudgmentDrawer.Update exampleValid exampleJudgmentDrawer ⟨20⟩).Countdown =
      exampleJudgmentDrawer.MaxCountdown ∧
    (JudgmentDrawer.Update exampleValid exampleJudgmentDrawer ⟨20⟩).MaxCountdown =
      exampleJudgmentDrawer.MaxCountdown :=
  C7_judgment_preemption exampleValid exampleJudgmentDrawer ⟨20⟩ (by decide)

/-- C8 (easing boundary values, exact rationals): the scale is 1.15 at age 0; at
age 0.1 the first and the second case of the `switch` both give 1.265, which is
the scale there; at age 1.0 the scale is `1 - 1.15*0.1 = 0.885`.  The first two
values are also what `Draw` applies to the sprite at countdown 60 of 60 and at
countdown 54 of 60. -/
theorem C8_easing_boundary_values :
    scaleRatio 0 = 1.15 ∧
    ratioFirst 0.1 = 1.265 ∧ ratioSecond 0.1 = 1.265 ∧ scaleRatio 0.1 = 1.265 ∧
    scaleRatio 1.0 = 1 - 1.15 * 0.1 ∧ scaleRatio 1.0 = 0.885 ∧
    JudgmentDrawer.Draw exampleJudgments ⟨60, 60, [exampleSprite 20, exampleSprite 21], ⟨40⟩⟩ =
      some [⟨(exampleSprite 21).SetScale 1.15, none⟩] ∧
    JudgmentDrawer.Draw exampleJudgments ⟨54, 60, [exampleSprite 20, exampleSprite 21], ⟨40⟩⟩ =
      some [⟨(exampleSprite 21).SetScale 1.265, none⟩] := by
  refine ⟨?_, ?_, ?_, ?_, ?_, ?_, ?_, ?_⟩
  · norm_num [scaleRatio, ratioFirst]
  · norm_num [ratioFirst]
  · norm_num [ratioSecond]
  · norm_num [scaleRatio, ratioSecond]
  · norm_num [scaleRatio, ratioThird]
  · norm_num [scaleRatio, ratioThird]
  · norm_num [JudgmentDrawer.Draw, JudgmentDrawer.findSprite, exampleJudgments,
      JudgmentDrawer.Age, scaleRatio, ratioFirst]
  · norm_num [JudgmentDrawer.Draw, JudgmentDrawer.findSprite, exampleJudgments,
      JudgmentDrawer.Age, scaleRatio, ratioSecond]

/-- The scale of `JudgmentDrawer.Draw` is continuous at age 0.1. -/
theorem scaleRatio_continuous_at_tenth (ε : ℚ) (hε : 0 < ε) :
    ∃ δ : ℚ, 0 < δ ∧ ∀ a : ℚ, |a - 0.1| < δ → |scaleRatio a - scaleRatio 0.1| < ε := by
  refine ⟨min (ε / 1.15) 0.1, lt_min (by positivity) (by norm_num), ?_⟩
  intro a ha
  have h1 : |a - 0.1| < ε / 1.15 := lt_of_lt_of_le ha (min_le_left _ _)
  have h2 : |a - 0.1| < 0.1 := lt_of_lt_of_le ha (min_le_right _ _)
  rw [abs_lt] at h1 h2
  have h3 : (1.15 : ℚ) * (ε / 1.15) = ε := by field_simp
  have hb : scaleRatio 0.1 = 1.265 := by norm_num [scaleRatio, ratioSecond]
  rw [hb, abs_lt]
  by_cases hlt : a < 0.1
  · have : scaleRatio a = 1.15 * (1 + a) := by simp [scaleRatio, ratioFirst, hlt]
    rw [this]
    constructor <;> nlinarith [h1.1, h1.2, h2.1, h2.2]
  · have hge : (0.1 : ℚ) ≤ a := not_lt.mp hlt
    have hlt2 : a < 0.2 := by linarith [h2.2]
    have : scaleRatio a = 1.15 * (1.2 - a) := by
      simp [scaleRatio, ratioSecond, hlt, hge, hlt2]
    rw [this]
    constructor <;> nlinarith [h1.1, h1.2, h2.1, h2.2]

/-- C9 (long-note body length): for a tail note at node `head + 1` whose `Prev`
is node `head`, `DrawLongBody` draws the body sprite with x scale 1, y scale
`(Tail.Position - Head.Position + bodyLoss) / H` (negated when `ReverseBody` is
set), moved by `-(Head.Position - Cursor)` along the scroll axis; for positions
100 and 300 and `bodyLoss = 10` the length is 210, not 190. -/
theorem C9_long_body_length (notes : List Note) (bodyLoss : ℚ) (ReverseBody : Bool)
    (d : NoteDrawer) (head : Nat) (ht : head + 1 < notes.length) :
    (∃ call, NoteDrawer.DrawLongBody notes bodyLoss ReverseBody d (head + 1) = some call ∧
      call.sprite.ScaleX = 1 ∧
      call.sprite.ScaleY =
        (if ReverseBody then
          -(((notes.get ⟨head + 1, ht⟩).Position - (notes.get ⟨head, by omega⟩).Position
            + bodyLoss) / (d.Sprites NoteType.Body).H)
        else
          ((notes.get ⟨head + 1, ht⟩).Position - (notes.get ⟨head, by omega⟩).Position
            + bodyLoss) / (d.Sprites NoteType.Body).H) ∧
      call.sprite.X = (d.Sprites NoteType.Body).X + 0 ∧
      call.sprite.Y = (d.Sprites NoteType.Body).Y +
        -((notes.get ⟨head, by omega⟩).Position - d.Cursor)) ∧
    bodyLength 300 100 10 = 210 ∧ bodyLength 300 100 10 ≠ 190 := by
  have h1 : posAt (notePositions notes) (head + 1) = (notes.get ⟨head + 1, ht⟩).Position := by
    simp [posAt, notePositions, List.getD_eq_getElem?_getD, List.getElem?_eq_getElem ht]
  have h0 : posAt (notePositions notes) head = (notes.get ⟨head, by omega⟩).Position := by
    have hh : head < notes.length := by omega
    simp [posAt, notePositions, List.getD_eq_getElem?_getD, List.getElem?_eq_getElem hh]
  refine ⟨?_, by norm_num [bodyLength], by norm_num [bodyLength]⟩
  cases ReverseBody <;>
    simp [NoteDrawer.DrawLongBody, Prev, Sprite.Move, Sprite.SetScaleXY, bodyLength, h0, h1]

/-- Witness of C9: the long note of the example notes, head at 0 and tail at 10. -/
theorem C9_long_body_length_witness :
    (∃ call, NoteDrawer.DrawLongBody exampleNotes 10 false exampleNoteDrawer (0 + 1) =
        some call ∧
      call.sprite.ScaleX = 1 ∧
      call.sprite.ScaleY =
        (if false = true then
          -(((exampleNotes.get ⟨0 + 1, by decide⟩).Position -
            (exampleNotes.get ⟨0, by decide⟩).Position + 10) /
            (exampleNoteDrawer.Sprites NoteType.Body).H)
        else
          ((exampleNotes.get ⟨0 + 1, by decide⟩).Position -
            (exampleNotes.get ⟨0, by decide⟩).Position + 10) /
            (exampleNoteDrawer.Sprites NoteType.Body).H) ∧
      call.sprite.X = (exampleNoteDrawer.Sprites NoteType.Body).X + 0 ∧
      call.sprite.Y = (exampleNoteDrawer.Sprites NoteType.Body).Y +
        -((exampleNotes.get ⟨0, by decide⟩).Position - exampleNoteDrawer.Cursor)) ∧
    bodyLength 300 100 10 = 210 ∧ bodyLength 300 100 10 ≠ 190 :=
  C9_long_body_length exampleNotes 10 false exampleNoteDrawer 0 (by decide)

/-- The method `BarDrawer.Update` panics whenever `Farthest` or `Nearest` is nil. -/
theorem barUpdate_nil (bars : List Bar) (mn mx : ℚ) (d : BarDrawer) (c : ℚ)
    (h : d.Farthest = none ∨ d.Nearest = none) :
    BarDrawer.Update bars mn mx d c = none := by
  unfold BarDrawer.Update
  rcases h with h | h
  · simp [h]
  · cases hf : d.Farthest <;> simp [h]

/-- The method `NoteDrawer.Update` with a nil pointer only stores the cursor. -/
theorem noteUpdate_nil (notes : List Note) (mn mx : ℚ) (d : NoteDrawer) (c : ℚ)
    (h : d.Farthest = none ∨ d.Nearest = none) :
    NoteDrawer.Update notes mn mx d c = some { d with Cursor := c } := by
  unfold NoteDrawer.Update
  rcases h with h | h
  · simp [h]
  · cases hf : d.Farthest <;> simp [h]

/-- The method `BarDrawer.Draw` with a nil pointer submits no draw call. -/
theorem barDraw_nil (bars : List Bar) (d : BarDrawer)
    (h : d.Farthest = none ∨ d.Nearest = none) :
    BarDrawer.Draw bars d = some [] := by
  unfold BarDrawer.Draw
  rcases h with h | h
  · simp [h]
  · cases hf : d.Farthest <;> simp [h]

/-- The method `NoteDrawer.Draw` with a nil pointer submits no draw call. -/
theorem noteDraw_nil (notes : List Note) (bodyLoss : ℚ) (ReverseBody : Bool) (d : NoteDrawer)
    (h : d.Farthest = none ∨ d.Nearest = none) :
    NoteDrawer.Draw notes bodyLoss ReverseBody d = some [] := by
  unfold NoteDrawer.Draw
  rcases h with h | h
  · simp [h]
  · cases hf : d.Farthest <;> simp [h]

/-- C10 (nil edge case), the code at the failing input: on an unseeded drawer
`BarDrawer.Update` panics (nil dereference at `d.Farthest.Prev`), and it panics
as well when only one of the two pointers is nil, whereas `NoteDrawer.Update` on
an unseeded drawer returns with both pointers unchanged, and both `Draw`
functions submit no draw call. -/
theorem C10_bar_update_nil_panics :
    BarDrawer.Update exampleBars (-5) 5 unseededBarDrawer 12 = none ∧
    BarDrawer.Update exampleBars (-5) 5 { unseededBarDrawer with Farthest := some 0 } 12 = none ∧
    BarDrawer.Update exampleBars (-5) 5 { unseededBarDrawer with Nearest := some 0 } 12 = none ∧
    NoteDrawer.Update exampleNotes (-5) 5 unseededNoteDrawer 12 =
      some { unseededNoteDrawer with Cursor := 12 } ∧
    BarDrawer.Draw exampleBars unseededBarDrawer = some [] ∧
    NoteDrawer.Draw exampleNotes 10 false unseededNoteDrawer = some [] :=
  ⟨rfl, rfl, rfl, rfl, rfl, rfl⟩

/-! ## The chain and the draw loops -/

/-- With `near` at or before `b` and enough fuel, the chain lists the nodes
`b, b - 1, ..., near`. -/
theorem chain_eq_range (near : Nat) :
    ∀ fuel b, near ≤ b → b < fuel + near →
      chain near fuel b = (List.range (b - near + 1)).map (fun t => b - t) := by
  intro fuel
  induction fuel with
  | zero => intro b h1 h2; omega
  | succ fuel ih =>
    intro b h1 h2
    unfold chain
    by_cases hb : b = near
    · subst hb
      simp [List.range_succ]
    · have hp : Prev b = some (b - 1) := by
        unfold Prev; rw [if_neg (by omega)]
      have hlen : b - near + 1 = (b - 1 - near + 1) + 1 := by omega
      rw [if_neg hb, hp]
      simp only
      rw [ih (b - 1) (by omega) (by omega), hlen,
        List.range_succ_eq_map (b - 1 - near + 1)]
      simp only [List.map_cons, List.map_map, Nat.sub_zero]
      congr 1
      apply List.map_congr_left
      intro t _
      simp only [Function.comp]
      omega

/-- With `Nearest` at or before `Farthest`, the chain lists the nodes
`Farthest, Farthest - 1, ..., Nearest`. -/
theorem windowChain_eq_range (far near : Nat) (h : near ≤ far) :
    windowChain far near = (List.range (far - near + 1)).map (fun t => far - t) :=
  chain_eq_range near (far + 1) far h (by omega)

theorem barDrawLoop_stop (bars : List Bar) (d : BarDrawer) (stop : Option Nat) (fuel : Nat) :
    BarDrawer.drawLoop bars d stop (fuel + 1) stop = some [] := by
  simp [BarDrawer.drawLoop]

theorem barDrawLoop_step (bars : List Bar) (d : BarDrawer) (stop : Option Nat)
    (fuel b : Nat) (h : some b ≠ stop) :
    BarDrawer.drawLoop bars d stop (fuel + 1) (some b) =
      (BarDrawer.drawLoop bars d stop fuel (Prev b)).map (fun rest =>
        (⟨d.Sprite.Move 0 (-(posAt (barPositions bars) b - d.Cursor)), none⟩ : DrawCall)
          :: rest) := by
  simp [BarDrawer.drawLoop, h]

/-- The loop of `BarDrawer.Draw` that starts at `b` and stops at `Prev near`
submits one call per node of the chain from `b` to `near`. -/
theorem barDrawLoop_chain (bars : List Bar) (d : BarDrawer) (near : Nat) :
    ∀ fuel b, near ≤ b → b < fuel + near →
      BarDrawer.drawLoop bars d (Prev near) (fuel + 1) (some b) =
        some ((chain near fuel b).map (fun i =>
          (⟨d.Sprite.Move 0 (-(posAt (barPositions bars) i - d.Cursor)), none⟩ : DrawCall))) := by
  intro fuel
  induction fuel with
  | zero => intro b h1 h2; omega
  | succ fuel ih =>
    intro b h1 h2
    have hne : some b ≠ Prev near := by
      unfold Prev; split <;> simp; omega
    rw [barDrawLoop_step bars d _ _ b hne]
    by_cases hb : b = near
    · subst hb
      rw [barDrawLoop_stop]
      simp [chain]
    · have hp : Prev b = some (b - 1) := by
        unfold Prev; rw [if_neg (by omega)]
      rw [hp, ih (b - 1) (by omega) (by omega)]
      conv_rhs => rw [chain, if_neg hb, hp]
      simp

/-- The method `BarDrawer.Draw` with `Nearest` at or before `Farthest`. -/
theorem barDraw_chain (bars : List Bar) (d : BarDrawer) (far near : Nat)
    (hf : d.Farthest = some far) (hn : d.Nearest = some near) (h : near ≤ far) :
    BarDrawer.Draw bars d =
      some ((windowChain far near).map (fun i =>
        (⟨d.Sprite.Move 0 (-(posAt (barPositions bars) i - d.Cursor)), none⟩ : DrawCall))) := by
  unfold BarDrawer.Draw
  rw [hf, hn]
  exact barDrawLoop_chain bars d near (far + 1) far h (by omega)

theorem noteDrawLoop_end (notes : List Note) (bodyLoss : ℚ) (rev : Bool) (d : NoteDrawer)
    (near fuel : Nat) :
    NoteDrawer.drawLoop notes bodyLoss rev d (Prev near) (fuel + 1) (Prev near) = some [] := by
  cases h : Prev near <;> simp [NoteDrawer.drawLoop]

theorem noteDrawLoop_step (notes : List Note) (bodyLoss : ℚ) (rev : Bool) (d : NoteDrawer)
    (stop : Option Nat) (fuel i : Nat) (h : some i ≠ stop) :
    NoteDrawer.drawLoop notes bodyLoss rev d stop (fuel + 1) (some i) =
      (if (noteAt notes i).Typ = NoteType.Tail then
        (NoteDrawer.DrawLongBody notes bodyLoss rev d i).map (fun c => [c])
        else some []).bind (fun body =>
          (NoteDrawer.drawLoop notes bodyLoss rev d stop fuel (Prev i)).map (fun rest =>
            body ++ (⟨(d.Sprites (noteAt notes i).Typ).Move 0
                (-(posAt (notePositions notes) i - d.Cursor)),
              if (noteAt notes i).Marked then some (0, 0.3, 0.3) else none⟩ : DrawCall)
              :: rest)) := by
  simp [NoteDrawer.drawLoop, h]

/-- The method `NoteDrawer.DrawLongBody` succeeds on a tail that has a `Prev`. -/
theorem drawLongBody_some (notes : List Note) (bodyLoss : ℚ) (rev : Bool) (d : NoteDrawer)
    (i : Nat) (h : 0 < i) :
    ∃ c, NoteDrawer.DrawLongBody notes bodyLoss rev d i = some c := by
  have hp : Prev i = some (i - 1) := by
    unfold Prev; rw [if_neg (by omega)]
  unfold NoteDrawer.DrawLongBody
  rw [hp]
  exact ⟨_, rfl⟩

/-- The loop of `NoteDrawer.Draw` that starts at `b` and stops at `Prev near`
submits, for each node of the chain from `b` to `near`, the long body if the node
is a tail and then the sprite of the node, provided every tail on the way has a
`Prev`. -/
theorem noteDrawLoop_chain (notes : List Note) (bodyLoss : ℚ) (rev : Bool) (d : NoteDrawer)
    (near : Nat) :
    ∀ fuel b, near ≤ b → b < fuel + near →
      (∀ i, near ≤ i → i ≤ b → (noteAt notes i).Typ = NoteType.Tail → 0 < i) →
      NoteDrawer.drawLoop notes bodyLoss rev d (Prev near) (fuel + 1) (some b) =
        some (((chain near fuel b).map (fun i =>
          (if (noteAt notes i).Typ = NoteType.Tail then
            (NoteDrawer.DrawLongBody notes bodyLoss rev d i).toList else []) ++
          [(⟨(d.Sprites (noteAt notes i).Typ).Move 0
              (-(posAt (notePositions notes) i - d.Cursor)),
            if (noteAt notes i).Marked then some (0, 0.3, 0.3) else none⟩ : DrawCall)])).flatten) := by
  intro fuel
  induction fuel with
  | zero => intro b h1 h2; omega
  | succ fuel ih =>
    intro b h1 h2 ht
    have hne : some b ≠ Prev near := by
      unfold Prev; split <;> simp; omega
    rw [noteDrawLoop_step notes bodyLoss rev d _ _ b hne]
    have hbody : (if (noteAt notes b).Typ = NoteType.Tail then
          (NoteDrawer.DrawLongBody notes bodyLoss rev d b).map (fun c => [c])
          else some []) =
        some (if (noteAt notes b).Typ = NoteType.Tail then
          (NoteDrawer.DrawLongBody notes bodyLoss rev d b).toList else []) := by
      by_cases hty : (noteAt notes b).Typ = NoteType.Tail
      · obtain ⟨c, hc⟩ := drawLongBody_some notes bodyLoss rev d b (ht b h1 (le_refl _) hty)
        simp [hty, hc]
      · simp [hty]
    rw [hbody]
    by_cases hb : b = near
    · subst hb
      rw [noteDrawLoop_end]
      simp [chain]
    · have hp : Prev b = some (b - 1) := by
        unfold Prev; rw [if_neg (by omega)]
      rw [hp, ih (b - 1) (by omega) (by omega)
        (fun i hi1 hi2 => ht i hi1 (by omega))]
      conv_rhs => rw [chain, if_neg hb, hp]
      simp

/-- The method `NoteDrawer.Draw` with `Nearest` at or before `Farthest` and a
`Prev` for every tail on the chain. -/
theorem noteDraw_chain (notes : List Note) (bodyLoss : ℚ) (rev : Bool) (d : NoteDrawer)
    (far near : Nat) (hf : d.Farthest = some far) (hn : d.Nearest = some near)
    (h : near ≤ far)
    (ht : ∀ i, near ≤ i → i ≤ far → (noteAt notes i).Typ = NoteType.Tail → 0 < i) :
    NoteDrawer.Draw notes bodyLoss rev d =
      some (((windowChain far near).map (fun i =>
        (if (noteAt notes i).Typ = NoteType.Tail then
          (NoteDrawer.DrawLongBody notes bodyLoss rev d i).toList else []) ++
        [(⟨(d.Sprites (noteAt notes i).Typ).Move 0
            (-(posAt (notePositions notes) i - d.Cursor)),
          if (noteAt notes i).Marked then some (0, 0.3, 0.3) else none⟩ : DrawCall)])).flatten) := by
  unfold NoteDrawer.Draw
  rw [hf, hn]
  exact noteDrawLoop_chain notes bodyLoss rev d near (far + 1) far h (by omega) ht

/-- Along the chain of a position-sorted sequence the positions do not increase. -/
theorem windowChain_positions (ps : List ℚ) (hs : PositionSorted ps) (far near : Nat)
    (h : near ≤ far) (hf : far < ps.length) :
    ((windowChain far near).map (posAt ps)).Pairwise (· ≥ ·) := by
  rw [windowChain_eq_range far near h, List.map_map, List.pairwise_map]
  have hr : (List.range (far - near + 1)).Pairwise (· < ·) := List.pairwise_lt_range _
  refine List.Pairwise.imp_of_mem ?_ hr
  intro a b ha hb hab
  simp only [List.mem_range] at ha hb
  simp only [Function.comp, ge_iff_le]
  exact posAt_mono ps hs (far - b) (far - a) (by omega) (by omega)

/-- C11, as amended (draw order): with `Nearest` at or before `Farthest` in a
position-sorted sequence, `BarDrawer.Draw` submits exactly one bar sprite per
node of the chain `Farthest, Farthest.Prev, ..., Nearest`, in that order, each
moved by `-(Position - Cursor)`; `NoteDrawer.Draw` does the same with the sprite
of the note type (preceded, for a tail, by its long body), provided every tail on
the chain has a `Prev`.  The chain runs from `Farthest` down to `Nearest` and
the positions along it do not increase. -/
theorem C11_draw_order (bars : List Bar) (notes : List Note) (bodyLoss : ℚ)
    (ReverseBody : Bool) (db : BarDrawer) (dn : NoteDrawer) (bf bn nf nn : Nat)
    (hbs : PositionSorted (barPositions bars))
    (hns : PositionSorted (notePositions notes))
    (hbf : db.Farthest = some bf) (hbn : db.Nearest = some bn)
    (hbl : bf < bars.length) (hbo : bn ≤ bf)
    (hnf : dn.Farthest = some nf) (hnn : dn.Nearest = some nn)
    (hnl : nf < notes.length) (hno : nn ≤ nf)
    (htail : ∀ i ∈ windowChain nf nn, (noteAt notes i).Typ = NoteType.Tail → Prev i ≠ none) :
    (BarDrawer.Draw bars db =
        some ((windowChain bf bn).map (fun i =>
          (⟨db.Sprite.Move 0 (-(posAt (barPositions bars) i - db.Cursor)), none⟩ :
            DrawCall))) ∧
      windowChain bf bn = (List.range (bf - bn + 1)).map (fun t => bf - t) ∧
      ((windowChain bf bn).map (posAt (barPositions bars))).Pairwise (· ≥ ·)) ∧
    (NoteDrawer.Draw notes bodyLoss ReverseBody dn =
        some (((windowChain nf nn).map (fun i =>
          (if (noteAt notes i).Typ = NoteType.Tail then
            (NoteDrawer.DrawLongBody notes bodyLoss ReverseBody dn i).toList else []) ++
          [(⟨(dn.Sprites (noteAt notes i).Typ).Move 0
              (-(posAt (notePositions notes) i - dn.Cursor)),
            if (noteAt notes i).Marked then some (0, 0.3, 0.3) else none⟩ :
            DrawCall)])).flatten) ∧
      windowChain nf nn = (List.range (nf - nn + 1)).map (fun t => nf - t) ∧
      ((windowChain nf nn).map (posAt (notePositions notes))).Pairwise (· ≥ ·)) := by
  refine ⟨⟨barDraw_chain bars db bf bn hbf hbn hbo, windowChain_eq_range bf bn hbo,
      windowChain_positions _ hbs bf bn hbo (by rw [barPositions_length]; exact hbl)⟩,
    ⟨noteDraw_chain notes bodyLoss ReverseBody dn nf nn hnf hnn hno ?_,
      windowChain_eq_range nf nn hno,
      windowChain_positions _ hns nf nn hno (by rw [notePositions_length]; exact hnl)⟩⟩
  intro i h1 h2 hty
  have hp := htail i (mem_windowChain nf nn i h1 h2) hty
  by_contra h0
  apply hp
  unfold Prev
  rw [if_pos (by omega)]

/-- Witness of C11 as amended: the example bars with the window from node 2 down
to node 1, and the example notes with the window from node 3 down to node 0,
whose only tail is node 1. -/
theorem C11_draw_order_witness :
    (BarDrawer.Draw exampleBars { exampleBarDrawer with Farthest := some 2, Nearest := some 1 } =
        some ((windowChain 2 1).map (fun i =>
          (⟨exampleBarDrawer.Sprite.Move 0
            (-(posAt (barPositions exampleBars) i - exampleBarDrawer.Cursor)), none⟩ :
            DrawCall))) ∧
      windowChain 2 1 = (List.range (2 - 1 + 1)).map (fun t => 2 - t) ∧
      ((windowChain 2 1).map (posAt (barPositions exampleBars))).Pairwise (· ≥ ·)) ∧
    (NoteDrawer.Draw exampleNotes 10 false exampleNoteDrawer =
        some (((windowChain 3 0).map (fun i =>
          (if (noteAt exampleNotes i).Typ = NoteType.Tail then
            (NoteDrawer.DrawLongBody exampleNotes 10 false exampleNoteDrawer i).toList
            else []) ++
          [(⟨(exampleNoteDrawer.Sprites (noteAt exampleNotes i).Typ).Move 0
              (-(posAt (notePositions exampleNotes) i - exampleNoteDrawer.Cursor)),
            if (noteAt exampleNotes i).Marked then some (0, 0.3, 0.3) else none⟩ :
            DrawCall)])).flatten) ∧
      windowChain 3 0 = (List.range (3 - 0 + 1)).map (fun t => 3 - t) ∧
      ((windowChain 3 0).map (posAt (notePositions exampleNotes))).Pairwise (· ≥ ·)) :=
  C11_draw_order exampleBars exampleNotes 10 false
    { exampleBarDrawer with Farthest := some 2, Nearest := some 1 } exampleNoteDrawer 2 1 3 0
    (by norm_num [PositionSorted, barPositions, exampleBars])
    (by norm_num [PositionSorted, notePositions, exampleNotes])
    rfl rfl (by decide) (by decide) rfl rfl (by decide) (by decide)
    (by
      intro i hi
      have hc : windowChain 3 0 = [3, 2, 1, 0] := by decide
      rw [hc] at hi
      simp only [List.mem_cons, List.mem_singleton, List.not_mem_nil, or_false] at hi
      rcases hi with h | h | h | h <;> subst h <;> simp [noteAt, exampleNotes, Prev])

/-- Counterexample to C11 as stated: a position-sorted sequence whose head is a
tail note, with `Farthest` and `Nearest` both at that node; `NoteDrawer.Draw`
panics in `DrawLongBody` (`tail.Prev` is nil) and submits no object sprite. -/
theorem C11_counterexample :
    PositionSorted (notePositions [⟨0, NoteType.Tail, false⟩]) ∧
    PointsInto ([⟨0, NoteType.Tail, false⟩] : List Note).length (some 0) ∧
    windowChain 0 0 = [0] ∧
    NoteDrawer.Draw [⟨0, NoteType.Tail, false⟩] 10 false
      ⟨0, some 0, some 0, fun _ => exampleSprite 1⟩ = none := by
  refine ⟨by simp [PositionSorted, notePositions], by simp [PointsInto], by decide, ?_⟩
  simp [NoteDrawer.Draw, NoteDrawer.drawLoop, NoteDrawer.DrawLongBody, Prev, noteAt]

/-! ## Fuel of the loops of `Update` -/

/-- The first loop returns the same pointer with any fuel that covers the nodes
before `far`. -/
theorem farthestPrevLoop_fuel (ps : List ℚ) (c mx : ℚ) :
    ∀ fuel1 fuel2 far, far ≤ fuel1 → far ≤ fuel2 →
      farthestPrevLoop ps c mx fuel1 far = farthestPrevLoop ps c mx fuel2 far := by
  intro fuel1
  induction fuel1 with
  | zero =>
    intro fuel2 far h1 _
    have h0 : far = 0 := by omega
    subst h0
    rw [farthestPrevLoop_head, farthestPrevLoop_head]
  | succ fuel1 ih =>
    intro fuel2 far h1 h2
    cases far with
    | zero => rw [farthestPrevLoop_head, farthestPrevLoop_head]
    | succ p =>
      cases fuel2 with
      | zero => omega
      | succ fuel2 =>
        rw [farthestPrevLoop_step, farthestPrevLoop_step]
        split
        · exact ih fuel2 p (by omega) (by omega)
        · rfl

/-- The second loop returns the same pointer with any fuel that covers the nodes
after `far`. -/
theorem farthestNextLoop_fuel (ps : List ℚ) (c mx : ℚ) :
    ∀ fuel1 fuel2 far, ps.length ≤ fuel1 + far + 1 → ps.length ≤ fuel2 + far + 1 →
      farthestNextLoop ps c mx fuel1 far = farthestNextLoop ps c mx fuel2 far := by
  intro fuel1
  induction fuel1 with
  | zero =>
    intro fuel2 far h1 _
    rw [farthestNextLoop_stay ps c mx 0 far (fun h => by omega),
      farthestNextLoop_stay ps c mx fuel2 far (fun h => by omega)]
  | succ fuel1 ih =>
    intro fuel2 far h1 h2
    cases fuel2 with
    | zero =>
      rw [farthestNextLoop_stay ps c mx (fuel1 + 1) far (fun h => by omega),
        farthestNextLoop_stay ps c mx 0 far (fun h => by omega)]
    | succ fuel2 =>
      rw [farthestNextLoop_step, farthestNextLoop_step]
      split
      · exact ih fuel2 (far + 1) (by omega) (by omega)
      · rfl

/-- The third loop returns the same pointer with any fuel that covers the nodes
before `near`. -/
theorem nearestPrevLoop_fuel (ps : List ℚ) (c mn : ℚ) :
    ∀ fuel1 fuel2 near, near ≤ fuel1 → near ≤ fuel2 →
      nearestPrevLoop ps c mn fuel1 near = nearestPrevLoop ps c mn fuel2 near := by
  intro fuel1
  induction fuel1 with
  | zero =>
    intro fuel2 near h1 _
    have h0 : near = 0 := by omega
    subst h0
    rw [nearestPrevLoop_head, nearestPrevLoop_head]
  | succ fuel1 ih =>
    intro fuel2 near h1 h2
    cases near with
    | zero => rw [nearestPrevLoop_head, nearestPrevLoop_head]
    | succ p =>
      cases fuel2 with
      | zero => omega
      | succ fuel2 =>
        rw [nearestPrevLoop_step, nearestPrevLoop_step]
        split
        · exact ih fuel2 p (by omega) (by omega)
        · rfl

/-- The fourth loop returns the same pointer with any fuel that covers the nodes
after `near`. -/
theorem nearestNextLoop_fuel (ps : List ℚ) (c mn : ℚ) :
    ∀ fuel1 fuel2 near, ps.length ≤ fuel1 + near + 1 → ps.length ≤ fuel2 + near + 1 →
      nearestNextLoop ps c mn fuel1 near = nearestNextLoop ps c mn fuel2 near := by
  intro fuel1
  induction fuel1 with
  | zero =>
    intro fuel2 near h1 _
    rw [nearestNextLoop_stay ps c mn 0 near (fun h => by omega),
      nearestNextLoop_stay ps c mn fuel2 near (fun h => by omega)]
  | succ fuel1 ih =>
    intro fuel2 near h1 h2
    cases fuel2 with
    | zero =>
      rw [nearestNextLoop_stay ps c mn (fuel1 + 1) near (fun h => by omega),
        nearestNextLoop_stay ps c mn 0 near (fun h => by omega)]
    | succ fuel2 =>
      rw [nearestNextLoop_step, nearestNextLoop_step]
      split
      · exact ih fuel2 (near + 1) (by omega) (by omega)
      · rfl

/-- More fuel than the length of the sequence does not change where `Farthest`
ends. -/
theorem updateFarthest_fuel (ps : List ℚ) (mx c : ℚ) (far fuel : Nat)
    (hf : far < ps.length) (h : ps.length ≤ fuel) :
    farthestNextLoop ps c mx fuel (farthestPrevLoop ps c mx fuel far) =
      updateFarthest ps mx c far := by
  unfold updateFarthest
  rw [farthestPrevLoop_fuel ps c mx fuel ps.length far (by omega) (by omega)]
  exact farthestNextLoop_fuel ps c mx fuel ps.length _ (by omega) (by omega)

/-- More fuel than the length of the sequence does not change where `Nearest`
ends. -/
theorem updateNearest_fuel (ps : List ℚ) (mn c : ℚ) (near fuel : Nat)
    (hn : near < ps.length) (h : ps.length ≤ fuel) :
    nearestNextLoop ps c mn fuel (nearestPrevLoop ps c mn fuel near) =
      updateNearest ps mn c near := by
  unfold updateNearest
  rw [nearestPrevLoop_fuel ps c mn fuel ps.length near (by omega) (by omega)]
  exact nearestNextLoop_fuel ps c mn fuel ps.length _ (by omega) (by omega)

/-- C13 (`Update` cannot error): on every sequence, sorted or not, from any two
non-nil pointers into it and for any cursor, `BarDrawer.Update` and
`NoteDrawer.Update` return a drawer (no nil link is read), whose `Farthest` and
`Nearest` point at nodes of the same sequence; the loops terminate: with any
fuel of at least the length of the sequence they end at the same pointers. -/
theorem C13_update_cannot_error (bars : List Bar) (notes : List Note)
    (minPosition maxPosition cursor : ℚ) (db : BarDrawer) (dn : NoteDrawer)
    (bf bn nf nn : Nat)
    (hbf : db.Farthest = some bf) (hbn : db.Nearest = some bn)
    (hbfl : bf < bars.length) (hbnl : bn < bars.length)
    (hnf : dn.Farthest = some nf) (hnn : dn.Nearest = some nn)
    (hnfl : nf < notes.length) (hnnl : nn < notes.length) :
    (∃ d, BarDrawer.Update bars minPosition maxPosition db cursor = some d ∧
      PointsInto bars.length d.Farthest ∧ PointsInto bars.length d.Nearest ∧
      ∀ fuel, bars.length ≤ fuel →
        d.Farthest = some (farthestNextLoop (barPositions bars) cursor maxPosition fuel
          (farthestPrevLoop (barPositions bars) cursor maxPosition fuel bf)) ∧
        d.Nearest = some (nearestNextLoop (barPositions bars) cursor minPosition fuel
          (nearestPrevLoop (barPositions bars) cursor minPosition fuel bn))) ∧
    (∃ d, NoteDrawer.Update notes minPosition maxPosition dn cursor = some d ∧
      PointsInto notes.length d.Farthest ∧ PointsInto notes.length d.Nearest ∧
      ∀ fuel, notes.length ≤ fuel →
        d.Farthest = some (farthestNextLoop (notePositions notes) cursor maxPosition fuel
          (farthestPrevLoop (notePositions notes) cursor maxPosition fuel nf)) ∧
        d.Nearest = some (nearestNextLoop (notePositions notes) cursor minPosition fuel
          (nearestPrevLoop (notePositions notes) cursor minPosition fuel nn))) := by
  have hb1 : bf < (barPositions bars).length := by rw [barPositions_length]; exact hbfl
  have hb2 : bn < (barPositions bars).length := by rw [barPositions_length]; exact hbnl
  have hn1 : nf < (notePositions notes).length := by rw [notePositions_length]; exact hnfl
  have hn2 : nn < (notePositions notes).length := by rw [notePositions_length]; exact hnnl
  constructor
  · refine ⟨_, barUpdate_seeded bars minPosition maxPosition db cursor bf bn hbf hbn, ?_, ?_, ?_⟩
    · have := updateFarthest_lt (barPositions bars) maxPosition cursor bf hb1
      rw [barPositions_length] at this
      simpa [PointsInto] using this
    · have := updateNearest_lt (barPositions bars) minPosition cursor bn hb2
      rw [barPositions_length] at this
      simpa [PointsInto] using this
    · intro fuel hfuel
      rw [updateFarthest_fuel _ _ _ bf fuel hb1 (by rw [barPositions_length]; exact hfuel),
        updateNearest_fuel _ _ _ bn fuel hb2 (by rw [barPositions_length]; exact hfuel)]
      exact ⟨rfl, rfl⟩
  · refine ⟨_, noteUpdate_seeded notes minPosition maxPosition dn cursor nf nn hnf hnn,
      ?_, ?_, ?_⟩
    · have := updateFarthest_lt (notePositions notes) maxPosition cursor nf hn1
      rw [notePositions_length] at this
      simpa [PointsInto] using this
    · have := updateNearest_lt (notePositions notes) minPosition cursor nn hn2
      rw [notePositions_length] at this
      simpa [PointsInto] using this
    · intro fuel hfuel
      rw [updateFarthest_fuel _ _ _ nf fuel hn1 (by rw [notePositions_length]; exact hfuel),
        updateNearest_fuel _ _ _ nn fuel hn2 (by rw [notePositions_length]; exact hfuel)]
      exact ⟨rfl, rfl⟩

/-- Witness of C13: four bars and four notes that are not sorted by position,
band `(-5, 5]`, cursor 12. -/
theorem C13_update_cannot_error_witness :
    (∃ d, BarDrawer.Update [⟨20⟩, ⟨0⟩, ⟨30⟩, ⟨10⟩] (-5) 5
        ⟨0, some 3, some 1, exampleSprite 0⟩ 12 = some d ∧
      PointsInto ([⟨20⟩, ⟨0⟩, ⟨30⟩, ⟨10⟩] : List Bar).length d.Farthest ∧
      PointsInto ([⟨20⟩, ⟨0⟩, ⟨30⟩, ⟨10⟩] : List Bar).length d.Nearest ∧
      ∀ fuel, ([⟨20⟩, ⟨0⟩, ⟨30⟩, ⟨10⟩] : List Bar).length ≤ fuel →
        d.Farthest = some (farthestNextLoop (barPositions [⟨20⟩, ⟨0⟩, ⟨30⟩, ⟨10⟩]) 12 5 fuel
          (farthestPrevLoop (barPositions [⟨20⟩, ⟨0⟩, ⟨30⟩, ⟨10⟩]) 12 5 fuel 3)) ∧
        d.Nearest = some (nearestNextLoop (barPositions [⟨20⟩, ⟨0⟩, ⟨30⟩, ⟨10⟩]) 12 (-5) fuel
          (nearestPrevLoop (barPositions [⟨20⟩, ⟨0⟩, ⟨30⟩, ⟨10⟩]) 12 (-5) fuel 1))) ∧
    (∃ d, NoteDrawer.Update exampleNotes.reverse (-5) 5 exampleNoteDrawer 12 = some d ∧
      PointsInto exampleNotes.reverse.length d.Farthest ∧
      PointsInto exampleNotes.reverse.length d.Nearest ∧
      ∀ fuel, exampleNotes.reverse.length ≤ fuel →
        d.Farthest = some (farthestNextLoop (notePositions exampleNotes.reverse) 12 5 fuel
          (farthestPrevLoop (notePositions exampleNotes.reverse) 12 5 fuel 3)) ∧
        d.Nearest = some (nearestNextLoop (notePositions exampleNotes.reverse) 12 (-5) fuel
          (nearestPrevLoop (notePositions exampleNotes.reverse) 12 (-5) fuel 0))) :=
  C13_update_cannot_error [⟨20⟩, ⟨0⟩, ⟨30⟩, ⟨10⟩] exampleNotes.reverse (-5) 5 12
    ⟨0, some 3, some 1, exampleSprite 0⟩ exampleNoteDrawer 3 1 3 0
    rfl rfl (by decide) (by decide) rfl rfl (by decide) (by decide)

/-! ## The walk of `Nearest`: the code and the words of the specification -/

theorem specNearestPrevLoop_eq (ps : List ℚ) (c mn : ℚ) :
    ∀ fuel near, specNearestPrevLoop ps c mn fuel near = farthestPrevLoop ps c mn fuel near := by
  intro fuel
  induction fuel with
  | zero => intro near; rfl
  | succ fuel ih =>
    intro near
    cases near with
    | zero => simp [specNearestPrevLoop, farthestPrevLoop, Prev]
    | succ p => simp [specNearestPrevLoop, farthestPrevLoop, Prev, ih]

theorem specNearestNextLoop_eq (ps : List ℚ) (c mn : ℚ) :
    ∀ fuel near, specNearestNextLoop ps c mn fuel near = nearestNextLoop ps c mn fuel near := by
  intro fuel
  induction fuel with
  | zero => intro near; rfl
  | succ fuel ih =>
    intro near
    by_cases h : near + 1 < ps.length <;>
      simp [specNearestNextLoop, nearestNextLoop, Next, h, ih]

/-- A walk along `Prev` that tests the position of `Prev` ends at its start or
at a node beyond the bound. -/
theorem farthestPrevLoop_at (ps : List ℚ) (c mx : ℚ) :
    ∀ fuel far, farthestPrevLoop ps c mx fuel far = far ∨
      mx < posAt ps (farthestPrevLoop ps c mx fuel far) - c := by
  intro fuel
  induction fuel with
  | zero => intro far; left; simp [farthestPrevLoop]
  | succ fuel ih =>
    intro far
    cases far with
    | zero => left; exact farthestPrevLoop_head ps c mx _
    | succ p =>
      rw [farthestPrevLoop_step]
      split
      · rename_i hc
        rcases ih p with h | h
        · right; rw [h]; exact hc
        · right; exact h
      · left; rfl

/-- In a position-sorted sequence at most one node is within the near bound
while its `Next` is beyond it. -/
theorem nearest_unique (ps : List ℚ) (hs : PositionSorted ps) (mn c : ℚ) (x y : Nat)
    (hx : x < ps.length) (hy : y < ps.length)
    (hx1 : posAt ps x - c ≤ mn) (hx2 : x + 1 < ps.length → mn < posAt ps (x + 1) - c)
    (hy1 : posAt ps y - c ≤ mn) (hy2 : y + 1 < ps.length → mn < posAt ps (y + 1) - c) :
    x = y := by
  rcases Nat.lt_trichotomy x y with h | h | h
  · have h1 := hx2 (by omega)
    have h2 := posAt_mono ps hs (x + 1) y (by omega) hy
    linarith
  · exact h
  · have h1 := hy2 (by omega)
    have h2 := posAt_mono ps hs (y + 1) x (by omega) hx
    linarith

/-- The walk of the code and the walk of the specification end at the same node
when the starting `Nearest` is within the near bound or no node is. -/
theorem specNearest_eq (ps : List ℚ) (hs : PositionSorted ps) (mn c : ℚ) (near : Nat)
    (hn : near < ps.length)
    (h : posAt ps near - c ≤ mn ∨ mn < posAt ps 0 - c) :
    specNearest ps mn c near = updateNearest ps mn c near := by
  have hN := updateNearest_lt ps mn c near hn
  have hNat := updateNearest_at ps mn c near hn
  have hNex := updateNearest_exit ps mn c near
  unfold specNearest
  rw [specNearestPrevLoop_eq, specNearestNextLoop_eq]
  rcases h with h | h
  · have hstay : farthestPrevLoop ps c mn ps.length near = near := by
      apply farthestPrevLoop_stay
      by_cases h0 : near = 0
      · left; exact h0
      · right
        have := posAt_mono ps hs (near - 1) near (by omega) hn
        linarith
    rw [hstay]
    have hS := (nearestNextLoop_ge ps c mn ps.length near).2 hn
    have hSat : posAt ps (nearestNextLoop ps c mn ps.length near) - c ≤ mn := by
      rcases nearestNextLoop_at ps c mn ps.length near with h1 | h1
      · rw [h1]; exact h
      · exact h1
    have hSex := nearestNextLoop_exit ps c mn ps.length near (by omega)
    have hNat1 : posAt ps (updateNearest ps mn c near) - c ≤ mn := by
      rcases hNat with h0 | h1
      · rw [h0]
        have := posAt_mono ps hs 0 near (by omega) hn
        linarith
      · exact h1
    exact nearest_unique ps hs mn c _ _ hS hN hSat hSex hNat1 hNex
  · have hall : ∀ j, j < ps.length → mn < posAt ps j - c := by
      intro j hj
      have := posAt_mono ps hs 0 j (by omega) hj
      linarith
    have hN0 : updateNearest ps mn c near = 0 := by
      rcases hNat with h0 | h1
      · exact h0
      · exact absurd h1 (not_le.mpr (hall _ hN))
    have hle := farthestPrevLoop_le ps c mn ps.length near
    have hS3 : farthestPrevLoop ps c mn ps.length near = 0 := by
      rcases farthestPrevLoop_exit ps c mn ps.length near (by omega) with h0 | h1
      · exact h0
      · by_contra hne
        exact absurd h1 (not_le.mpr (hall _ (by omega)))
    rw [hS3, hN0]
    rcases nearestNextLoop_at ps c mn ps.length 0 with h0 | h1
    · exact h0
    · exact absurd h1 (not_le.mpr (hall _ ((nearestNextLoop_ge ps c mn ps.length 0).2 (by omega))))

/-- The walk of the specification ends one node after the walk of the code when
the starting `Nearest` is beyond the near bound while the head is within it. -/
theorem specNearest_succ (ps : List ℚ) (hs : PositionSorted ps) (mn c : ℚ) (near : Nat)
    (hn : near < ps.length)
    (h1 : mn < posAt ps near - c) (h0 : posAt ps 0 - c ≤ mn) :
    specNearest ps mn c near = updateNearest ps mn c near + 1 := by
  have hN := updateNearest_lt ps mn c near hn
  have hNat := updateNearest_at ps mn c near hn
  have hNex := updateNearest_exit ps mn c near
  have hNat1 : posAt ps (updateNearest ps mn c near) - c ≤ mn := by
    rcases hNat with h | h
    · rw [h]; exact h0
    · exact h
  unfold specNearest
  rw [specNearestPrevLoop_eq, specNearestNextLoop_eq]
  have hle := farthestPrevLoop_le ps c mn ps.length near
  have hS3gt : mn < posAt ps (farthestPrevLoop ps c mn ps.length near) - c := by
    rcases farthestPrevLoop_at ps c mn ps.length near with h | h
    · rw [h]; exact h1
    · exact h
  have hS3pos : farthestPrevLoop ps c mn ps.length near ≠ 0 := by
    intro h
    rw [h] at hS3gt
    linarith
  have hS3prev : posAt ps (farthestPrevLoop ps c mn ps.length near - 1) - c ≤ mn := by
    rcases farthestPrevLoop_exit ps c mn ps.length near (by omega) with h | h
    · exact absurd h hS3pos
    · exact h
  have hstay : nearestNextLoop ps c mn ps.length (farthestPrevLoop ps c mn ps.length near) =
      farthestPrevLoop ps c mn ps.length near := by
    apply nearestNextLoop_stay
    intro hlt
    have := posAt_mono ps hs (farthestPrevLoop ps c mn ps.length near)
      (farthestPrevLoop ps c mn ps.length near + 1) (by omega) hlt
    linarith
  rw [hstay]
  have hu := nearest_unique ps hs mn c (farthestPrevLoop ps c mn ps.length near - 1)
    (updateNearest ps mn c near) (by omega) hN hS3prev
    (fun _ => by
      rw [show farthestPrevLoop ps c mn ps.length near - 1 + 1 =
        farthestPrevLoop ps c mn ps.length near by omega]
      exact hS3gt)
    hNat1 hNex
  omega

/-- C14, as amended (the walk of `Nearest`): on a position-sorted sequence, the
`Nearest` that `NoteDrawer.Update` and `BarDrawer.Update` produce is the node
that steps 3 and 4 of the specification produce when the starting `Nearest` has
`Position - Cursor <= minPosition` or the head has `Position - Cursor >
minPosition` (no node is within the near bound); when the starting `Nearest` is
beyond the near bound and the head is within it, it is the `Prev` of that node.
The third loop of the code tests `Nearest.Position`, step 3 of the specification
tests `Prev.Position`. -/
theorem C14_nearest_walk (bars : List Bar) (notes : List Note)
    (minPosition maxPosition cursor : ℚ) (db : BarDrawer) (dn : NoteDrawer) (bn nn : Nat)
    (hbs : PositionSorted (barPositions bars))
    (hns : PositionSorted (notePositions notes))
    (hbf : PointsInto bars.length db.Farthest) (hbn : db.Nearest = some bn)
    (hbl : bn < bars.length)
    (hnf : PointsInto notes.length dn.Farthest) (hnn : dn.Nearest = some nn)
    (hnl : nn < notes.length) :
    (∃ d near, NoteDrawer.Update notes minPosition maxPosition dn cursor = some d ∧
      d.Nearest = some near ∧
      ((posAt (notePositions notes) nn - cursor ≤ minPosition ∨
          minPosition < posAt (notePositions notes) 0 - cursor) →
        specNearest (notePositions notes) minPosition cursor nn = near) ∧
      ((minPosition < posAt (notePositions notes) nn - cursor ∧
          posAt (notePositions notes) 0 - cursor ≤ minPosition) →
        Prev (specNearest (notePositions notes) minPosition cursor nn) = some near)) ∧
    (∃ d near, BarDrawer.Update bars minPosition maxPosition db cursor = some d ∧
      d.Nearest = some near ∧
      ((posAt (barPositions bars) bn - cursor ≤ minPosition ∨
          minPosition < posAt (barPositions bars) 0 - cursor) →
        specNearest (barPositions bars) minPosition cursor bn = near) ∧
      ((minPosition < posAt (barPositions bars) bn - cursor ∧
          posAt (barPositions bars) 0 - cursor ≤ minPosition) →
        Prev (specNearest (barPositions bars) minPosition cursor bn) = some near)) := by
  obtain ⟨bf, hbf1, _⟩ := hbf.exists_index
  obtain ⟨nf, hnf1, _⟩ := hnf.exists_index
  rw [← barPositions_length] at hbl
  rw [← notePositions_length] at hnl
  constructor
  · refine ⟨_, _, noteUpdate_seeded notes minPosition maxPosition dn cursor nf nn hnf1 hnn,
      rfl, ?_, ?_⟩
    · intro h
      exact specNearest_eq _ hns minPosition cursor nn hnl h
    · intro h
      rw [specNearest_succ _ hns minPosition cursor nn hnl h.1 h.2]
      simp [Prev]
  · refine ⟨_, _, barUpdate_seeded bars minPosition maxPosition db cursor bf bn hbf1 hbn,
      rfl, ?_, ?_⟩
    · intro h
      exact specNearest_eq _ hbs minPosition cursor bn hbl h
    · intro h
      rw [specNearest_succ _ hbs minPosition cursor bn hbl h.1 h.2]
      simp [Prev]

/-- Witness of C14 as amended: the example notes and bars, band `(-5, 5]`, cursor
12; the notes start with `Nearest` at the head, the bars with `Nearest` at the
tail. -/
theorem C14_nearest_walk_witness :
    (∃ d near, NoteDrawer.Update exampleNotes (-5) 5 exampleNoteDrawer 12 = some d ∧
      d.Nearest = some near ∧
      ((posAt (notePositions exampleNotes) 0 - 12 ≤ (-5 : ℚ) ∨
          (-5 : ℚ) < posAt (notePositions exampleNotes) 0 - 12) →
        specNearest (notePositions exampleNotes) (-5) 12 0 = near) ∧
      (((-5 : ℚ) < posAt (notePositions exampleNotes) 0 - 12 ∧
          posAt (notePositions exampleNotes) 0 - 12 ≤ (-5 : ℚ)) →
        Prev (specNearest (notePositions exampleNotes) (-5) 12 0) = some near)) ∧
    (∃ d near, BarDrawer.Update exampleBars (-5) 5
        { exampleBarDrawer with Nearest := some 3 } 12 = some d ∧
      d.Nearest = some near ∧
      ((posAt (barPositions exampleBars) 3 - 12 ≤ (-5 : ℚ) ∨
          (-5 : ℚ) < posAt (barPositions exampleBars) 0 - 12) →
        specNearest (barPositions exampleBars) (-5) 12 3 = near) ∧
      (((-5 : ℚ) < posAt (barPositions exampleBars) 3 - 12 ∧
          posAt (barPositions exampleBars) 0 - 12 ≤ (-5 : ℚ)) →
        Prev (specNearest (barPositions exampleBars) (-5) 12 3) = some near)) :=
  C14_nearest_walk exampleBars exampleNotes (-5) 5 12
    { exampleBarDrawer with Nearest := some 3 } exampleNoteDrawer 3 0
    (by norm_num [PositionSorted, barPositions, exampleBars])
    (by norm_num [PositionSorted, notePositions, exampleNotes])
    (by simp [PointsInto, exampleBarDrawer, exampleBars]) rfl (by decide)
    (by simp [PointsInto, exampleNoteDrawer, exampleNotes]) rfl (by decide)

/-- Counterexample to C14 as stated: the example notes with band `(-5, 5]`,
cursor 12 and `Nearest` starting at node 3; `NoteDrawer.Update` leaves `Nearest`
at node 0, steps 3 and 4 of the specification leave it at node 1. -/
theorem C14_counterexample :
    PositionSorted (notePositions exampleNotes) ∧
    (∃ d, NoteDrawer.Update exampleNotes (-5) 5
        { exampleNoteDrawer with Nearest := some 3 } 12 = some d ∧
      d.Nearest = some 0) ∧
    specNearest (notePositions exampleNotes) (-5) 12 3 = 1 := by
  refine ⟨by norm_num [PositionSorted, notePositions, exampleNotes],
    ⟨_, noteUpdate_seeded exampleNotes (-5) 5 _ 12 3 3 rfl rfl, ?_⟩, ?_⟩
  · norm_num [updateNearest, nearestNextLoop, nearestPrevLoop, Prev, Next, posAt,
      notePositions, exampleNotes]
  · norm_num [specNearest, specNearestNextLoop, specNearestPrevLoop, Prev, Next, posAt,
      notePositions, exampleNotes]

/-! ## The countdown rules of the key drawer and of the judgment drawer -/

/-- C15 (per-key countdown rule): when `lastPressed` and `pressed` have the
length of `Countdowns`, `KeyDrawer.Update` succeeds and keeps that length, and
for each key `k` the new countdown is `MinCountdown` on a rising edge, otherwise
the old countdown less one if it was positive, otherwise the old countdown; a
second drawer and second signals that agree with the first at key `k` give the
same countdown at key `k`, whatever they hold at the other keys. -/
theorem C15_per_key_countdown (d : KeyDrawer) (lastPressed pressed : List Bool)
    (hl : lastPressed.length = d.Countdowns.length)
    (hp : pressed.length = d.Countdowns.length) :
    ∃ d1, d.Update lastPressed pressed = some d1 ∧
      d1.Countdowns.length = d.Countdowns.length ∧
      (∀ k, k < d.Countdowns.length →
        d1.Countdowns.getD k 0 =
          if lastPressed.getD k false = false ∧ pressed.getD k false = true then
            d.MinCountdown
          else if d.Countdowns.getD k 0 > 0 then d.Countdowns.getD k 0 - 1
          else d.Countdowns.getD k 0) ∧
      (∀ (e : KeyDrawer) (lastPressed2 pressed2 : List Bool) (k : Nat),
        lastPressed2.length = e.Countdowns.length →
        pressed2.length = e.Countdowns.length →
        e.MinCountdown = d.MinCountdown →
        e.Countdowns.getD k 0 = d.Countdowns.getD k 0 →
        lastPressed2.getD k false = lastPressed.getD k false →
        pressed2.getD k false = pressed.getD k false →
        ∃ e1, e.Update lastPressed2 pressed2 = some e1 ∧
          e1.Countdowns.getD k 0 = d1.Countdowns.getD k 0) := by
  obtain ⟨d1, h1, _, _, _, _, _, h7, h8⟩ :=
    keyUpdate_spec d d.Countdowns.length lastPressed pressed rfl hl hp
  refine ⟨d1, h1, h7, fun k _ => h8 k, ?_⟩
  intro e lp2 ps2 k hl2 hp2 hmin hcd hlk hpk
  obtain ⟨e1, g1, _, _, _, _, _, _, g8⟩ :=
    keyUpdate_spec e e.Countdowns.length lp2 ps2 rfl hl2 hp2
  refine ⟨e1, g1, ?_⟩
  rw [g8 k, h8 k, hmin, hcd, hlk, hpk]

/-- Witness of C15: the two-key example drawer, a rising edge on key 0 and a
positive countdown on key 1. -/
theorem C15_per_key_countdown_witness :
    ∃ d1, exampleKeyDrawer2.Update [false, false] [true, false] = some d1 ∧
      d1.Countdowns.length = exampleKeyDrawer2.Countdowns.length ∧
      (∀ k, k < exampleKeyDrawer2.Countdowns.length →
        d1.Countdowns.getD k 0 =
          if [false, false].getD k false = false ∧ [true, false].getD k false = true then
            exampleKeyDrawer2.MinCountdown
          else if exampleKeyDrawer2.Countdowns.getD k 0 > 0 then
            exampleKeyDrawer2.Countdowns.getD k 0 - 1
          else exampleKeyDrawer2.Countdowns.getD k 0) ∧
      (∀ (e : KeyDrawer) (lastPressed2 pressed2 : List Bool) (k : Nat),
        lastPressed2.length = e.Countdowns.length →
        pressed2.length = e.Countdowns.length →
        e.MinCountdown = exampleKeyDrawer2.MinCountdown →
        e.Countdowns.getD k 0 = exampleKeyDrawer2.Countdowns.getD k 0 →
        lastPressed2.getD k false = [false, false].getD k false →
        pressed2.getD k false = [true, false].getD k false →
        ∃ e1, e.Update lastPressed2 pressed2 = some e1 ∧
          e1.Countdowns.getD k 0 = d1.Countdowns.getD k 0) :=
  C15_per_key_countdown exampleKeyDrawer2 [false, false] [true, false] rfl rfl

/-- One `JudgmentDrawer.Update` with a judgment that is not valid: the countdown
goes down by one if it is positive and `MaxCountdown` stays. -/
theorem judgmentUpdate_invalid (valid : Judgment → Bool) (d : JudgmentDrawer) (w : Judgment)
    (hw : valid w = false) :
    (JudgmentDrawer.Update valid d w).Countdown =
      (if d.Countdown ≤ 0 then d.Countdown else d.Countdown - 1) ∧
    (JudgmentDrawer.Update valid d w).MaxCountdown = d.MaxCountdown := by
  unfold JudgmentDrawer.Update
  simp only [hw, Bool.false_eq_true, if_false]
  split <;> simp

/-- A run of judgments that are not valid, from a countdown that is not negative. -/
theorem judgmentRun_invalid (valid : Judgment → Bool) :
    ∀ (later : List Judgment) (d : JudgmentDrawer), 0 ≤ d.Countdown →
      (∀ w ∈ later, valid w = false) →
      (JudgmentDrawer.run valid d later).Countdown = max (d.Countdown - later.length) 0 := by
  intro later
  induction later with
  | nil =>
    intro d h0 _
    simp only [JudgmentDrawer.run, List.length_nil, Nat.cast_zero, sub_zero]
    exact (max_eq_left h0).symm
  | cons w rest ih =>
    intro d h0 hall
    have hw := hall w (List.mem_cons_self _ _)
    have hu := (judgmentUpdate_invalid valid d w hw).1
    have h01 : 0 ≤ (JudgmentDrawer.Update valid d w).Countdown := by
      rw [hu]; split_ifs <;> omega
    rw [JudgmentDrawer.run, ih _ h01 (fun x hx => hall x (List.mem_cons_of_mem _ hx)), hu]
    simp only [List.length_cons, Nat.cast_add, Nat.cast_one]
    have hm : (0 : Int) ≤ (rest.length : Int) := Int.natCast_nonneg _
    generalize d.Countdown = c at h0 ⊢
    generalize (rest.length : Int) = m at hm ⊢
    split_ifs with hc
    · have hc0 : c = 0 := by omega
      subst hc0
      rw [max_eq_right (by omega), max_eq_right (by omega)]
    · congr 1; omega

/-- C16 (fixed display duration): for `MaxCountdown >= 0`, after one
`JudgmentDrawer.Update` with a valid judgment and `k` further ones with judgments
that are not valid, `Countdown` is `max (MaxCountdown - k) 0`; so it is positive
exactly when `k < MaxCountdown`, and it is never negative. -/
theorem C16_fixed_display_duration (valid : Judgment → Bool) (d : JudgmentDrawer)
    (w : Judgment) (later : List Judgment)
    (hmax : 0 ≤ d.MaxCountdown) (hv : valid w = true)
    (hinv : ∀ x ∈ later, valid x = false) :
    (JudgmentDrawer.run valid d (w :: later)).Countdown =
      max (d.MaxCountdown - later.length) 0 ∧
    (0 < (JudgmentDrawer.run valid d (w :: later)).Countdown ↔
      (later.length : Int) < d.MaxCountdown) ∧
    0 ≤ (JudgmentDrawer.run valid d (w :: later)).Countdown := by
  have hu : (JudgmentDrawer.Update valid d w).Countdown = d.MaxCountdown := by
    unfold JudgmentDrawer.Update
    simp only [hv, if_true]
    split <;> simp
  have hrun := judgmentRun_invalid valid later (JudgmentDrawer.Update valid d w)
    (by rw [hu]; exact hmax) hinv
  rw [hu] at hrun
  have hrun1 : (JudgmentDrawer.run valid d (w :: later)).Countdown =
      max (d.MaxCountdown - later.length) 0 := by
    rw [JudgmentDrawer.run]; exact hrun
  refine ⟨hrun1, ?_, ?_⟩
  · rw [hrun1]
    constructor
    · intro h
      by_contra hn
      rw [max_eq_right (by omega)] at h
      omega
    · intro h
      rw [max_eq_left (by omega)]
      omega
  · rw [hrun1]
    exact le_max_right _ _

/-- Witness of C16: tier 20 arrives at the example drawer (`MaxCountdown = 60`)
and three ticks without a valid judgment follow. -/
theorem C16_fixed_display_duration_witness :
    (JudgmentDrawer.run exampleValid exampleJudgmentDrawer
        (⟨20⟩ :: [⟨0⟩, ⟨0⟩, ⟨0⟩])).Countdown =
      max (exampleJudgmentDrawer.MaxCountdown - ([⟨0⟩, ⟨0⟩, ⟨0⟩] : List Judgment).length) 0 ∧
    (0 < (JudgmentDrawer.run exampleValid exampleJudgmentDrawer
        (⟨20⟩ :: [⟨0⟩, ⟨0⟩, ⟨0⟩])).Countdown ↔
      (([⟨0⟩, ⟨0⟩, ⟨0⟩] : List Judgment).length : Int) < exampleJudgmentDrawer.MaxCountdown) ∧
    0 ≤ (JudgmentDrawer.run exampleValid exampleJudgmentDrawer
        (⟨20⟩ :: [⟨0⟩, ⟨0⟩, ⟨0⟩])).Countdown :=
  C16_fixed_display_duration exampleValid exampleJudgmentDrawer ⟨20⟩ [⟨0⟩, ⟨0⟩, ⟨0⟩]
    (by decide) (by decide) (by decide)

/-! ## The window bounds are exact and do not depend on the starting pointers -/

/-- On a position-sorted sequence `Farthest` after `Update` is the first node
beyond the far bound, or the tail if there is none. -/
theorem farthest_exact (ps : List ℚ) (hs : PositionSorted ps) (mx c : ℚ) (far : Nat)
    (hf : far < ps.length) :
    (mx < posAt ps (updateFarthest ps mx c far) - c ∧
        ∀ j, j < updateFarthest ps mx c far → posAt ps j - c ≤ mx) ∨
      (updateFarthest ps mx c far + 1 = ps.length ∧
        ∀ j, j < ps.length → posAt ps j - c ≤ mx) := by
  have hlt := updateFarthest_lt ps mx c far hf
  have hbefore := before_updateFarthest ps hs mx c far hf
  by_cases h : mx < posAt ps (updateFarthest ps mx c far) - c
  · left; exact ⟨h, hbefore⟩
  · right
    have htail : updateFarthest ps mx c far + 1 = ps.length := by
      by_contra hne
      exact h (updateFarthest_exit ps mx c far (by omega))
    refine ⟨htail, ?_⟩
    intro j hj
    rcases Nat.lt_or_ge j (updateFarthest ps mx c far) with h1 | h1
    · exact hbefore j h1
    · have hj2 : j = updateFarthest ps mx c far := by omega
      rw [hj2]; exact not_lt.mp h

/-- On a position-sorted sequence `Nearest` after `Update` is the last node
within the near bound, or the head if there is none. -/
theorem nearest_exact (ps : List ℚ) (hs : PositionSorted ps) (mn c : ℚ) (near : Nat)
    (hn : near < ps.length) :
    (posAt ps (updateNearest ps mn c near) - c ≤ mn ∧
        ∀ j, updateNearest ps mn c near < j → j < ps.length → mn < posAt ps j - c) ∨
      (updateNearest ps mn c near = 0 ∧ ∀ j, j < ps.length → mn < posAt ps j - c) := by
  have hafter := after_updateNearest ps hs mn c near
  by_cases h : posAt ps (updateNearest ps mn c near) - c ≤ mn
  · left; exact ⟨h, hafter⟩
  · right
    have h0 : updateNearest ps mn c near = 0 := by
      rcases updateNearest_at ps mn c near hn with h1 | h1
      · exact h1
      · exact absurd h1 h
    refine ⟨h0, ?_⟩
    intro j hj
    rcases Nat.eq_zero_or_pos j with hj0 | hj0
    · rw [hj0, ← h0]; exact not_le.mp h
    · exact hafter j (by omega) hj

/-- On a position-sorted sequence `Farthest` after `Update` does not depend on
where `Farthest` was before. -/
theorem farthest_history (ps : List ℚ) (hs : PositionSorted ps) (mx c : ℚ) (far1 far2 : Nat)
    (h1 : far1 < ps.length) (h2 : far2 < ps.length) :
    updateFarthest ps mx c far1 = updateFarthest ps mx c far2 := by
  have hl1 := updateFarthest_lt ps mx c far1 h1
  have hl2 := updateFarthest_lt ps mx c far2 h2
  rcases Nat.lt_trichotomy (updateFarthest ps mx c far1) (updateFarthest ps mx c far2)
    with h | h | h
  · have ha := before_updateFarthest ps hs mx c far2 h2 _ h
    have hb := updateFarthest_exit ps mx c far1 (by omega)
    linarith
  · exact h
  · have ha := before_updateFarthest ps hs mx c far1 h1 _ h
    have hb := updateFarthest_exit ps mx c far2 (by omega)
    linarith

/-- On a position-sorted sequence `Nearest` after `Update` does not depend on
where `Nearest` was before. -/
theorem nearest_history (ps : List ℚ) (hs : PositionSorted ps) (mn c : ℚ) (near1 near2 : Nat)
    (h1 : near1 < ps.length) (h2 : near2 < ps.length) :
    updateNearest ps mn c near1 = updateNearest ps mn c near2 := by
  have hl1 := updateNearest_lt ps mn c near1 h1
  have hl2 := updateNearest_lt ps mn c near2 h2
  rcases Nat.lt_trichotomy (updateNearest ps mn c near1) (updateNearest ps mn c near2)
    with h | h | h
  · have ha := after_updateNearest ps hs mn c near1 _ h hl2
    rcases updateNearest_at ps mn c near2 h2 with hb | hb
    · omega
    · linarith
  · exact h
  · have ha := after_updateNearest ps hs mn c near2 _ h hl1
    rcases updateNearest_at ps mn c near1 h1 with hb | hb
    · omega
    · linarith

/-- C17 (exact, history-independent window bounds): on a position-sorted
sequence, from any two non-nil pointers into it and for any cursor, after
`BarDrawer.Update` and `NoteDrawer.Update` the pointer `Farthest` is the first
node with `Position - Cursor > maxPosition`, or the tail if there is none, and
`Nearest` is the last node with `Position - Cursor <= minPosition`, or the head
if there is none; any other drawer with non-nil pointers into the sequence is
updated to the same two pointers. -/
theorem C17_exact_window_bounds (bars : List Bar) (notes : List Note)
    (minPosition maxPosition cursor : ℚ) (db : BarDrawer) (dn : NoteDrawer)
    (hbs : PositionSorted (barPositions bars))
    (hns : PositionSorted (notePositions notes))
    (hbf : PointsInto bars.length db.Farthest) (hbn : PointsInto bars.length db.Nearest)
    (hnf : PointsInto notes.length dn.Farthest) (hnn : PointsInto notes.length dn.Nearest) :
    (∃ d far near, BarDrawer.Update bars minPosition maxPosition db cursor = some d ∧
      d.Farthest = some far ∧ d.Nearest = some near ∧
      ((maxPosition < posAt (barPositions bars) far - cursor ∧
          ∀ j, j < far → posAt (barPositions bars) j - cursor ≤ maxPosition) ∨
        (far + 1 = bars.length ∧
          ∀ j, j < bars.length → posAt (barPositions bars) j - cursor ≤ maxPosition)) ∧
      ((posAt (barPositions bars) near - cursor ≤ minPosition ∧
          ∀ j, near < j → j < bars.length →
            minPosition < posAt (barPositions bars) j - cursor) ∨
        (near = 0 ∧
          ∀ j, j < bars.length → minPosition < posAt (barPositions bars) j - cursor)) ∧
      ∀ e : BarDrawer, PointsInto bars.length e.Farthest →
        PointsInto bars.length e.Nearest →
        ∃ e1, BarDrawer.Update bars minPosition maxPosition e cursor = some e1 ∧
          e1.Farthest = some far ∧ e1.Nearest = some near) ∧
    (∃ d far near, NoteDrawer.Update notes minPosition maxPosition dn cursor = some d ∧
      d.Farthest = some far ∧ d.Nearest = some near ∧
      ((maxPosition < posAt (notePositions notes) far - cursor ∧
          ∀ j, j < far → posAt (notePositions notes) j - cursor ≤ maxPosition) ∨
        (far + 1 = notes.length ∧
          ∀ j, j < notes.length → posAt (notePositions notes) j - cursor ≤ maxPosition)) ∧
      ((posAt (notePositions notes) near - cursor ≤ minPosition ∧
          ∀ j, near < j → j < notes.length →
            minPosition < posAt (notePositions notes) j - cursor) ∨
        (near = 0 ∧
          ∀ j, j < notes.length → minPosition < posAt (notePositions notes) j - cursor)) ∧
      ∀ e : NoteDrawer, PointsInto notes.length e.Farthest →
        PointsInto notes.length e.Nearest →
        ∃ e1, NoteDrawer.Update notes minPosition maxPosition e cursor = some e1 ∧
          e1.Farthest = some far ∧ e1.Nearest = some near) := by
  obtain ⟨bf, hbf1, hbf2⟩ := hbf.exists_index
  obtain ⟨bn, hbn1, hbn2⟩ := hbn.exists_index
  obtain ⟨nf, hnf1, hnf2⟩ := hnf.exists_index
  obtain ⟨nn, hnn1, hnn2⟩ := hnn.exists_index
  have hbl := barPositions_length bars
  have hnl := notePositions_length notes
  constructor
  · refine ⟨_, _, _, barUpdate_seeded bars minPosition maxPosition db cursor bf bn hbf1 hbn1,
      rfl, rfl, ?_, ?_, ?_⟩
    · have := farthest_exact _ hbs maxPosition cursor bf (by rw [hbl]; exact hbf2)
      rw [hbl] at this
      exact this
    · have := nearest_exact _ hbs minPosition cursor bn (by rw [hbl]; exact hbn2)
      rw [hbl] at this
      exact this
    · intro e he1 he2
      obtain ⟨ef, hef1, hef2⟩ := he1.exists_index
      obtain ⟨en, hen1, hen2⟩ := he2.exists_index
      refine ⟨_, barUpdate_seeded bars minPosition maxPosition e cursor ef en hef1 hen1, ?_, ?_⟩
      · simp only
        rw [farthest_history _ hbs maxPosition cursor ef bf (by rw [hbl]; exact hef2)
          (by rw [hbl]; exact hbf2)]
      · simp only
        rw [nearest_history _ hbs minPosition cursor en bn (by rw [hbl]; exact hen2)
          (by rw [hbl]; exact hbn2)]
  · refine ⟨_, _, _, noteUpdate_seeded notes minPosition maxPosition dn cursor nf nn hnf1 hnn1,
      rfl, rfl, ?_, ?_, ?_⟩
    · have := farthest_exact _ hns maxPosition cursor nf (by rw [hnl]; exact hnf2)
      rw [hnl] at this
      exact this
    · have := nearest_exact _ hns minPosition cursor nn (by rw [hnl]; exact hnn2)
      rw [hnl] at this
      exact this
    · intro e he1 he2
      obtain ⟨ef, hef1, hef2⟩ := he1.exists_index
      obtain ⟨en, hen1, hen2⟩ := he2.exists_index
      refine ⟨_, noteUpdate_seeded notes minPosition maxPosition e cursor ef en hef1 hen1,
        ?_, ?_⟩
      · simp only
        rw [farthest_history _ hns maxPosition cursor ef nf (by rw [hnl]; exact hef2)
          (by rw [hnl]; exact hnf2)]
      · simp only
        rw [nearest_history _ hns minPosition cursor en nn (by rw [hnl]; exact hen2)
          (by rw [hnl]; exact hnn2)]

/-- Witness of C17: the example bars and notes, band `(-5, 5]`, cursor 12. -/
theorem C17_exact_window_bounds_witness :
    (∃ d far near, BarDrawer.Update exampleBars (-5 : ℚ) (5 : ℚ) exampleBarDrawer (12 : ℚ) = some d ∧
      d.Farthest = some far ∧ d.Nearest = some near ∧
      (((5 : ℚ) < posAt (barPositions exampleBars) far - (12 : ℚ) ∧
          ∀ j, j < far → posAt (barPositions exampleBars) j - (12 : ℚ) ≤ (5 : ℚ)) ∨
        (far + 1 = exampleBars.length ∧
          ∀ j, j < exampleBars.length → posAt (barPositions exampleBars) j - (12 : ℚ) ≤ (5 : ℚ))) ∧
      ((posAt (barPositions exampleBars) near - (12 : ℚ) ≤ (-5 : ℚ) ∧
          ∀ j, near < j → j < exampleBars.length →
            (-5 : ℚ) < posAt (barPositions exampleBars) j - (12 : ℚ)) ∨
        (near = 0 ∧
          ∀ j, j < exampleBars.length → (-5 : ℚ) < posAt (barPositions exampleBars) j - (12 : ℚ))) ∧
      ∀ e : BarDrawer, PointsInto exampleBars.length e.Farthest →
        PointsInto exampleBars.length e.Nearest →
        ∃ e1, BarDrawer.Update exampleBars (-5 : ℚ) (5 : ℚ) e (12 : ℚ) = some e1 ∧
          e1.Farthest = some far ∧ e1.Nearest = some near) ∧
    (∃ d far near, NoteDrawer.Update exampleNotes (-5 : ℚ) (5 : ℚ) exampleNoteDrawer (12 : ℚ) = some d ∧
      d.Farthest = some far ∧ d.Nearest = some near ∧
      (((5 : ℚ) < posAt (notePositions exampleNotes) far - (12 : ℚ) ∧
          ∀ j, j < far → posAt (notePositions exampleNotes) j - (12 : ℚ) ≤ (5 : ℚ)) ∨
        (far + 1 = exampleNotes.length ∧
          ∀ j, j < exampleNotes.length → posAt (notePositions exampleNotes) j - (12 : ℚ) ≤ (5 : ℚ))) ∧
      ((posAt (notePositions exampleNotes) near - (12 : ℚ) ≤ (-5 : ℚ) ∧
          ∀ j, near < j → j < exampleNotes.length →
            (-5 : ℚ) < posAt (notePositions exampleNotes) j - (12 : ℚ)) ∨
        (near = 0 ∧
          ∀ j, j < exampleNotes.length → (-5 : ℚ) < posAt (notePositions exampleNotes) j - (12 : ℚ))) ∧
      ∀ e : NoteDrawer, PointsInto exampleNotes.length e.Farthest →
        PointsInto exampleNotes.length e.Nearest →
        ∃ e1, NoteDrawer.Update exampleNotes (-5 : ℚ) (5 : ℚ) e (12 : ℚ) = some e1 ∧
          e1.Farthest = some far ∧ e1.Nearest = some near) :=
  C17_exact_window_bounds exampleBars exampleNotes (-5) 5 12 exampleBarDrawer exampleNoteDrawer
    (by norm_num [PositionSorted, barPositions, exampleBars])
    (by norm_num [PositionSorted, notePositions, exampleNotes])
    (by simp [PointsInto, exampleBarDrawer, exampleBars])
    (by simp [PointsInto, exampleBarDrawer, exampleBars])
    (by simp [PointsInto, exampleNoteDrawer, exampleNotes])
    (by simp [PointsInto, exampleNoteDrawer, exampleNotes])

/-! ## The order of the pointers and the loop of `BarDrawer.Draw` -/

/-- On a position-sorted sequence with `minPosition <= maxPosition`, `Nearest`
after `Update` is at or before `Farthest` after `Update`. -/
theorem nearest_le_farthest (ps : List ℚ) (hs : PositionSorted ps) (mn mx c : ℚ)
    (hmm : mn ≤ mx) (far near : Nat) (hn : near < ps.length) :
    updateNearest ps mn c near ≤ updateFarthest ps mx c far := by
  by_contra hlt
  have hN := updateNearest_lt ps mn c near hn
  have h1 := after_updateFarthest ps hs mx c far (updateNearest ps mn c near) (by omega) hN
  rcases updateNearest_at ps mn c near hn with h0 | h2
  · omega
  · linarith

/-- The loop of `BarDrawer.Draw` panics when `Nearest` is more than one node
after `Farthest`: it walks past the head without meeting `Nearest.Prev`. -/
theorem barDrawLoop_panics (bars : List Bar) (d : BarDrawer) (near : Nat) :
    ∀ fuel b, b + 1 < near →
      BarDrawer.drawLoop bars d (Prev near) fuel (some b) = none := by
  intro fuel
  induction fuel with
  | zero => intro b _; rfl
  | succ fuel ih =>
    intro b hb
    have hne : some b ≠ Prev near := by
      unfold Prev; split <;> simp; omega
    rw [barDrawLoop_step bars d _ _ b hne]
    cases b with
    | zero =>
      have hstop : Prev near ≠ none := by
        unfold Prev; rw [if_neg (by omega)]; simp
      cases fuel with
      | zero => rfl
      | succ fuel =>
        have : BarDrawer.drawLoop bars d (Prev near) (fuel + 1) (Prev 0) = none := by
          have h0 : Prev 0 = none := by simp [Prev]
          rw [h0]
          simp [BarDrawer.drawLoop, Ne.symm hstop]
        rw [this]; rfl
    | succ p =>
      have hp : Prev (p + 1) = some p := by simp [Prev]
      rw [hp, ih p (by omega)]
      rfl

/-- C18 (ordering invariant that makes `Draw` safe): on a position-sorted
sequence with `minPosition <= maxPosition`, from any two non-nil pointers into it
and for any cursor, after `BarDrawer.Update` the pointer `Nearest` is at or
before `Farthest`; hence the loop of `BarDrawer.Draw` on the updated drawer
returns without reading a nil pointer, after one step per node from `Farthest`
down to `Nearest`. -/
theorem C18_ordering_invariant (bars : List Bar) (minPosition maxPosition cursor : ℚ)
    (db : BarDrawer)
    (hbs : PositionSorted (barPositions bars)) (hmm : minPosition ≤ maxPosition)
    (hbf : PointsInto bars.length db.Farthest) (hbn : PointsInto bars.length db.Nearest) :
    ∃ d far near calls, BarDrawer.Update bars minPosition maxPosition db cursor = some d ∧
      d.Farthest = some far ∧ d.Nearest = some near ∧ near ≤ far ∧
      BarDrawer.Draw bars d = some calls ∧ calls.length = far - near + 1 := by
  obtain ⟨bf, hbf1, _⟩ := hbf.exists_index
  obtain ⟨bn, hbn1, hbn2⟩ := hbn.exists_index
  have hle := nearest_le_farthest (barPositions bars) hbs minPosition maxPosition cursor hmm
    bf bn (by rw [barPositions_length]; exact hbn2)
  refine ⟨_, _, _, _, barUpdate_seeded bars minPosition maxPosition db cursor bf bn hbf1 hbn1,
    rfl, rfl, hle, barDraw_chain bars _ _ _ rfl rfl hle, ?_⟩
  rw [List.length_map, windowChain_eq_range _ _ hle, List.length_map, List.length_range]

/-- Witness of C18: the example bars, band `(-5, 5]`, cursor 12. -/
theorem C18_ordering_invariant_witness :
    ∃ d far near calls, BarDrawer.Update exampleBars (-5) 5 exampleBarDrawer 12 = some d ∧
      d.Farthest = some far ∧ d.Nearest = some near ∧ near ≤ far ∧
      BarDrawer.Draw exampleBars d = some calls ∧ calls.length = far - near + 1 :=
  C18_ordering_invariant exampleBars (-5) 5 12 exampleBarDrawer
    (by norm_num [PositionSorted, barPositions, exampleBars]) (by norm_num)
    (by simp [PointsInto, exampleBarDrawer, exampleBars])
    (by simp [PointsInto, exampleBarDrawer, exampleBars])

/-! ## The easing scale as a function of the age -/

/-- C19 (the easing scale jumps at age 0.2): for `0.1 <= a < 0.2` the scale is
`1.15 * (1.2 - a)`, above 1.15; for `0.2 <= a <= 0.9` it is exactly 1; so at 0.2
it jumps (ages as close to 0.2 as wanted have a scale more than 0.15 above the
scale at 0.2); at 0.9 it does not jump (it is continuous there); and for every
`a` in `[0, 1]` it stays within `[0.885, 1.265]`. -/
theorem C19_easing_jump :
    (∀ a : ℚ, 0.1 ≤ a → a < 0.2 → scaleRatio a = 1.15 * (1.2 - a) ∧ 1.15 < scaleRatio a) ∧
    (∀ a : ℚ, 0.2 ≤ a → a ≤ 0.9 → scaleRatio a = 1) ∧
    (∀ δ : ℚ, 0 < δ → ∃ a : ℚ, |a - 0.2| < δ ∧ 0.15 < scaleRatio a - scaleRatio 0.2) ∧
    (∀ ε : ℚ, 0 < ε → ∃ δ : ℚ, 0 < δ ∧
      ∀ a : ℚ, |a - 0.9| < δ → |scaleRatio a - scaleRatio 0.9| < ε) ∧
    (∀ a : ℚ, 0 ≤ a → a ≤ 1 → 0.885 ≤ scaleRatio a ∧ scaleRatio a ≤ 1.265) := by
  have hsecond : ∀ a : ℚ, 0.1 ≤ a → a < 0.2 → scaleRatio a = 1.15 * (1.2 - a) := by
    intro a h1 h2
    have h3 : ¬ a < 0.1 := not_lt.mpr h1
    simp [scaleRatio, ratioSecond, h3, h1, h2]
  have hflat : ∀ a : ℚ, 0.2 ≤ a → a ≤ 0.9 → scaleRatio a = 1 := by
    intro a h1 h2
    have h3 : ¬ a < 0.1 := by intro h; linarith
    have h4 : ¬ a < 0.2 := not_lt.mpr h1
    have h5 : ¬ a > 0.9 := not_lt.mpr h2
    simp [scaleRatio, h3, h4, h5]
    norm_num
  have hthird : ∀ a : ℚ, 0.9 < a → scaleRatio a = 1 - 1.15 * (a - 0.9) := by
    intro a h1
    have h3 : ¬ a < 0.1 := by intro h; linarith
    have h4 : ¬ a < 0.2 := by intro h; linarith
    simp [scaleRatio, ratioThird, h3, h4, h1]
  have hfirst : ∀ a : ℚ, a < 0.1 → scaleRatio a = 1.15 * (1 + a) := by
    intro a h1
    simp [scaleRatio, ratioFirst, h1]
  refine ⟨?_, hflat, ?_, ?_, ?_⟩
  · intro a h1 h2
    rw [hsecond a h1 h2]
    exact ⟨rfl, by nlinarith⟩
  · intro δ hδ
    refine ⟨0.2 - min δ 0.1 / 2, ?_, ?_⟩
    · have hm : 0 < min δ 0.1 := lt_min hδ (by norm_num)
      have hm2 : min δ 0.1 ≤ δ := min_le_left _ _
      rw [abs_lt]
      constructor <;> linarith
    · have hm : 0 < min δ 0.1 := lt_min hδ (by norm_num)
      have hm2 : min δ 0.1 ≤ 0.1 := min_le_right _ _
      rw [hsecond _ (by linarith) (by linarith), hflat 0.2 (le_refl _) (by norm_num)]
      linarith
  · intro ε hε
    refine ⟨min (ε / 1.15) 0.1, lt_min (by positivity) (by norm_num), ?_⟩
    intro a ha
    have h1 : |a - 0.9| < ε / 1.15 := lt_of_lt_of_le ha (min_le_left _ _)
    have h2 : |a - 0.9| < 0.1 := lt_of_lt_of_le ha (min_le_right _ _)
    rw [abs_lt] at h1 h2
    have h3 : (1.15 : ℚ) * (ε / 1.15) = ε := by field_simp
    rw [hflat 0.9 (by norm_num) (le_refl _), abs_lt]
    by_cases hle : a ≤ 0.9
    · rw [hflat a (by linarith [h2.1]) hle]
      constructor <;> linarith
    · rw [hthird a (not_le.mp hle)]
      constructor <;> nlinarith [h1.1, h1.2, h2.1, h2.2]
  · intro a h0 h1
    by_cases c1 : a < 0.1
    · rw [hfirst a c1]
      constructor <;> nlinarith
    · by_cases c2 : a < 0.2
      · rw [hsecond a (not_lt.mp c1) c2]
        constructor <;> nlinarith [not_lt.mp c1]
      · by_cases c3 : a ≤ 0.9
        · rw [hflat a (not_lt.mp c2) c3]
          constructor <;> norm_num
        · rw [hthird a (not_le.mp c3)]
          constructor <;> nlinarith [not_le.mp c3]

/-- Witness of C19: at age 0.15 the scale is `1.15 * (1.2 - 0.15)`, above 1.15;
at age 0.5 it is 1; at age 0.95 it is between 0.885 and 1.265. -/
theorem C19_easing_jump_witness :
    (scaleRatio 0.15 = 1.15 * (1.2 - 0.15) ∧ 1.15 < scaleRatio 0.15) ∧
    scaleRatio 0.5 = 1 ∧
    (0.885 ≤ scaleRatio 0.95 ∧ scaleRatio 0.95 ≤ 1.265) :=
  ⟨C19_easing_jump.1 0.15 (by norm_num) (by norm_num),
    C19_easing_jump.2.1 0.5 (by norm_num) (by norm_num),
    C19_easing_jump.2.2.2.2 0.95 (by norm_num) (by norm_num)⟩

end Piano

namespace Gosu

/-! ## Claims on the chart file mode -/

/-- The function `ChartFileMode` on a path with extension `.osu` in any letter
case whose chart is a mania chart: `ModePiano4` for at most 4 keys and for 6
keys, `ModePiano7` otherwise. -/
theorem chartFileMode_mania (osu : Osu) (fpath : String)
    (hext : toLower (filepathExt fpath) = ".osu".data)
    (hmode : (osu.Mode fpath).1 = osu.ModeMania) :
    ChartFileMode osu fpath =
      if (osu.Mode fpath).2 ≤ 4 ∨ (osu.Mode fpath).2 = 6 then ModePiano4 else ModePiano7 := by
  unfold ChartFileMode
  simp only [hext, if_true]
  rw [if_pos hmode]

/-- C12 (key-count to mode mapping), the code at the failing input: for a mania
chart with 6 keys and extension `.osu`, in lower or upper case, `ChartFileMode`
returns `ModePiano4`, which is not `ModePiano7`; for 4 keys it returns
`ModePiano4`, for 5 and for 7 keys `ModePiano7`. -/
theorem C12_six_keys_piano4 :
    ChartFileMode (exampleOsu 6) "songs/chart.osu" = ModePiano4 ∧
    ChartFileMode (exampleOsu 6) "songs/CHART.OSU" = ModePiano4 ∧
    ModePiano4 ≠ ModePiano7 ∧
    ChartFileMode (exampleOsu 4) "songs/chart.osu" = ModePiano4 ∧
    ChartFileMode (exampleOsu 5) "songs/chart.osu" = ModePiano7 ∧
    ChartFileMode (exampleOsu 7) "songs/chart.osu" = ModePiano7 := by
  decide

end Gosu
